import Mathlib

/-!
Verification development for the taskflow task/need-tracking application.

The definitions below are a shallow embedding of the Python source:
  - `src/tasks/models.py` (Task, TaskType, Need, validate_status, clean,
    `_would_create_cycle`, save),
  - `src/tasks/serializers.py` (TaskSerializer.validate_parent,
    `_ensure_task_type`, TaskRelationSerializer.validate),
  - `src/tasks/services/needs.py` (convert_need, convert_needs),
  - `src/tasks/services/commits.py` (activate_commit) and the identical
    apply logic in `src/tasks/admin.py` (TaskAdmin.commits_activate),
  - `src/tasks/api/views.py` (NeedViewSet.convert) and
    `src/tasks/admin.py` (NeedAdmin.convert_selected).

Database rows are modelled as association lists keyed by primary key.
Machine-level concerns (HTTP plumbing, JSON parsing, datetimes) are
abstracted: timestamps are `Nat`, a file read is an `Except` value, and a
parsed snapshot is a Lean structure mirroring the JSON schema.  Fields of
the Python dictionaries obtained with `.get(...)` are `Option`-valued.
-/

set_option autoImplicit false

namespace Taskflow

/-! ### Association-list primitives (the database tables) -/

/-- First-match lookup in an association list keyed by `Nat` primary keys. -/
def alookup {α : Type} : List (Nat × α) → Nat → Option α
  | [], _ => none
  | (j, v) :: t, i => if j = i then some v else alookup t i

/-- Replace the value stored at key `i` (an SQL `UPDATE ... WHERE pk = i`). -/
def aset {α : Type} (l : List (Nat × α)) (i : Nat) (v : α) : List (Nat × α) :=
  l.map (fun p => if p.1 = i then (p.1, v) else p)

/-- Update the value stored at key `i` by a function. -/
def amodify {α : Type} (l : List (Nat × α)) (i : Nat) (f : α → α) : List (Nat × α) :=
  l.map (fun p => if p.1 = i then (p.1, f p.2) else p)

/-- The primary keys of a table. -/
def akeys {α : Type} (l : List (Nat × α)) : List Nat := l.map Prod.fst

/-- A fresh auto-increment primary key: one more than the largest key in use. -/
def freshKey {α : Type} (l : List (Nat × α)) : Nat :=
  (akeys l).foldr Nat.max 0 + 1

/-! ### Data model (`src/tasks/models.py`)

`TaskRec`, `NeedRec`, `UserRec`, `TaskTypeRec` mirror the Django models
`Task`, `Need`, `User` (the subset exported to snapshots) and `TaskType`.
Foreign keys are stored as optional primary keys; `created_at` and the other
datetime columns are abstract `Nat` instants.  Values read out of snapshot
dictionaries with `.get(...)` can be `None`, so the corresponding columns
are `Option`-typed. -/

/-- A row of the `Task` table: title, status, created_at, owner FK,
task_type FK, parent FK (self-referential, `on_delete=SET_NULL`). -/
structure TaskRec where
  title : Option String
  status : Option String
  createdAt : Option Nat
  owner : Option Nat
  taskType : Option Nat
  parent : Option Nat
  deriving Repr, DecidableEq

/-- A row of the `Need` table. -/
structure NeedRec where
  title : Option String
  description : Option String
  createdAt : Option Nat
  owner : Option Nat
  converted : Bool
  convertedAt : Option Nat
  convertedBy : Option Nat
  deriving Repr, DecidableEq

/-- The slice of the Django `User` table that commits serialize. -/
structure UserRec where
  username : String
  email : String
  isStaff : Bool
  isActive : Bool
  dateJoined : Option Nat
  deriving Repr, DecidableEq

/-- A row of the `TaskType` table (`code` is unique). -/
structure TaskTypeRec where
  code : String
  label : String
  order : Nat
  deriving Repr, DecidableEq

/-- The database: one association list per table, keyed by primary key. -/
structure Store where
  tasks : List (Nat × TaskRec)
  needs : List (Nat × NeedRec)
  users : List (Nat × UserRec)
  taskTypes : List (Nat × TaskTypeRec)
  deriving Repr, DecidableEq

/-- The empty database. -/
def Store.empty : Store := ⟨[], [], [], []⟩

/-- `validate_status` (models.py): the allowed status values. -/
def statusOk : Option String → Bool
  | some s => s == "A faire" || s == "En cours" || s == "Fait"
  | none => false

/-- The parent pointer of task `i` in the store (`None` when the task does
not exist or has no parent). -/
def pstep (s : Store) (i : Nat) : Option Nat :=
  (alookup s.tasks i).bind (fun t => t.parent)

/-- Iterate a partial successor function `k` times:
`iterF f k x` is the node reached from `x` after `k` parent steps. -/
def iterF (f : Nat → Option Nat) : Nat → Nat → Option Nat
  | 0, x => some x
  | k + 1, x =>
    match f x with
    | none => none
    | some y => iterF f k y

/-- Iterated parent lookup in a store. -/
def iterP (s : Store) : Nat → Nat → Option Nat := iterF (pstep s)

/-- `Task._would_create_cycle` (models.py): starting from the candidate
parent, walk the parent chain; report a cycle when the walking pointer's
pk equals the task's own pk.  The Python loop is unbounded; the `fuel`
argument is an upper bound on the walk, and exhausting it is reported as
a cycle (under the acyclicity invariant the walk always ends first). -/
def wouldCreateCycle (s : Store) (selfPk : Option Nat) : Nat → Nat → Bool
  | 0, _ => true
  | fuel + 1, cur =>
    if some cur = selfPk then true
    else
      match pstep s cur with
      | none => false
      | some nxt => wouldCreateCycle s selfPk fuel nxt

/-- The fuel given to the cycle walk: more than the number of tasks. -/
def cycleFuel (s : Store) : Nat := s.tasks.length + 1

/-- `Task.clean` (models.py): reject a task that is its own parent, or whose
candidate parent chain walks back to the task's own pk.  Returns the list of
field-keyed validation errors (empty = clean passed). -/
def cleanTask (s : Store) (pk : Option Nat) (t : TaskRec) : List (String × String) :=
  if t.parent.isSome && t.parent == pk then
    [("parent", "Une tâche ne peut pas être son propre parent.")]
  else
    match t.parent with
    | some p =>
      if wouldCreateCycle s pk (cycleFuel s) p then
        [("parent", "Cycle détecté dans la hiérarchie.")]
      else []
    | none => []

/-- `Task.full_clean` as invoked by the overridden `Task.save`: field
validators (`validate_status`) plus the model `clean`.  Framework-level
checks not written in the repository (max_length, null checks on title)
are out of scope. -/
def fullCleanTask (s : Store) (pk : Option Nat) (t : TaskRec) : List (String × String) :=
  (if statusOk t.status then [] else
    [("status", "Statut invalide, veuillez choisir : A faire, En cours, Fait")]) ++
  cleanTask s pk t

/-- The database FOREIGN KEY constraint on `Task.parent`: a stored parent
pk must reference an existing task row. -/
def parentFkOk (s : Store) (t : TaskRec) : Bool :=
  match t.parent with
  | some p => (akeys s.tasks).contains p
  | none => true

/-- `Task.save` on a new instance (pk not yet assigned): run `full_clean`,
then INSERT with a fresh auto-increment pk.  Returns the new store and pk. -/
def saveTaskNew (s : Store) (t : TaskRec) : Except (List (String × String)) (Store × Nat) :=
  match fullCleanTask s none t with
  | [] =>
    if parentFkOk s t then
      let i := freshKey s.tasks
      .ok ({ s with tasks := s.tasks ++ [(i, t)] }, i)
    else .error [("db", "FOREIGN KEY constraint failed")]
  | errs => .error errs

/-- `Task.save` on an existing row `i`: run `full_clean` with the task's own
pk, then UPDATE the row in place. -/
def saveTaskExisting (s : Store) (i : Nat) (t : TaskRec) :
    Except (List (String × String)) Store :=
  match alookup s.tasks i with
  | none => .error [("db", "task does not exist")]
  | some _ =>
    match fullCleanTask s (some i) t with
    | [] =>
      if parentFkOk s t then
        .ok { s with tasks := aset s.tasks i t }
      else .error [("db", "FOREIGN KEY constraint failed")]
    | errs => .error errs

/-- `Task(pk=pk, **defaults).save()` as performed by `update_or_create` when
no row with the snapshot-supplied pk exists: `full_clean`, then INSERT at
that explicit pk. -/
def createTaskWithPk (s : Store) (pk : Nat) (t : TaskRec) :
    Except (List (String × String)) Store :=
  match fullCleanTask s (some pk) t with
  | [] =>
    if parentFkOk s t then
      .ok { s with tasks := s.tasks ++ [(pk, t)] }
    else .error [("db", "FOREIGN KEY constraint failed")]
  | errs => .error errs

/-- `Task.objects.filter(pk=i).update(created_at=dt)`: a raw queryset
update that bypasses `save` and touches only `created_at`. -/
def setTaskCreatedAt (s : Store) (i : Nat) (d : Nat) : Store :=
  { s with tasks := amodify s.tasks i (fun r => { r with createdAt := some d }) }

/-- `TaskType.get_default` (models.py): `get_or_create(code="task",
defaults={"label": "Tâche", "order": 40})`. -/
def getDefaultTaskType (s : Store) : Store × Nat :=
  match s.taskTypes.find? (fun p => p.2.code == "task") with
  | some p => (s, p.1)
  | none =>
    let i := freshKey s.taskTypes
    ({ s with taskTypes := s.taskTypes ++ [(i, ⟨"task", "Tâche", 40⟩)] }, i)

/-! ### Serializer layer (`src/tasks/serializers.py`) and API views -/

/-- The field values of an unsaved `Task()` instance (model defaults):
empty title, status "A faire", everything else null. -/
def newTaskDefaults : TaskRec :=
  ⟨some "", some "A faire", none, none, none, none⟩

/-- `TaskSerializer.validate_parent`: for a null value, accept.  Otherwise
simulate assigning the parent on the instance (or on a fresh `Task()` when
creating) and reuse the model `clean`; a model validation error becomes a
serializer error on the "parent" field. -/
def validateParent (s : Store) (inst : Option (Nat × TaskRec)) (value : Option Nat) :
    Except (List String) (Option Nat) :=
  match value with
  | none => .ok none
  | some p =>
    let pk : Option Nat := inst.map (fun ir => ir.1)
    let base : TaskRec :=
      match inst with
      | some ir => ir.2
      | none => newTaskDefaults
    match cleanTask s pk { base with parent := some p } with
    | [] => .ok (some p)
    | errs => .error (errs.map (fun e => e.2))

/-- HTTP-level outcome of an API call. -/
inductive Resp where
  | created (pk : Nat)
  | okResp (pk : Nat)
  | badRequest (errs : List (String × String))
  | notFound
  | serverError (errs : List (String × String))
  deriving Repr, DecidableEq

/-- `TaskViewSet` create (POST): `TaskSerializer.validate_parent`, then
`_ensure_task_type` (substituting `TaskType.get_default()` when no type was
supplied), then `Task.save` via `perform_create` (which stores the request
user as owner).  `now` is the request instant used for `created_at`. -/
def apiCreateTask (s : Store) (title : String) (status : Option String)
    (parentArg : Option Nat) (ttArg : Option Nat) (user : Option Nat) (now : Nat) :
    Store × Resp :=
  match validateParent s none parentArg with
  | .error msgs => (s, .badRequest (msgs.map (fun m => ("parent", m))))
  | .ok pv =>
    let ensured := match ttArg with
      | some t => (s, t)
      | none => getDefaultTaskType s
    match saveTaskNew ensured.1
        ⟨some title, some (status.getD "A faire"), some now, user, some ensured.2, pv⟩ with
    | .ok (s2, tid) => (s2, .created tid)
    | .error errs => (ensured.1, .badRequest errs)

/-- `TaskViewSet` update (PUT/PATCH) restricted to the claim-relevant
fields: `validate_parent` against the existing instance, then
`_ensure_task_type`, then `Task.save` (full_clean) on the updated row. -/
def apiUpdateTask (s : Store) (i : Nat) (parentArg : Option Nat) (ttArg : Option Nat) :
    Store × Resp :=
  match alookup s.tasks i with
  | none => (s, .notFound)
  | some old =>
    match validateParent s (some (i, old)) parentArg with
    | .error msgs => (s, .badRequest (msgs.map (fun m => ("parent", m))))
    | .ok pv =>
      let ensured := match ttArg with
        | some t => (s, t)
        | none => getDefaultTaskType s
      match saveTaskExisting ensured.1 i { old with parent := pv, taskType := some ensured.2 } with
      | .ok s2 => (s2, .okResp i)
      | .error errs => (ensured.1, .serverError errs)

/-! ### Need conversion (`src/tasks/services/needs.py`) -/

/-- `convert_need(need, user)`: inside one transaction, create a `Task`
with the need's title, status `'A faire'` and the need's owner, then
`need.mark_converted(user)` (converted := True, converted_at := now,
converted_by := user).  An exception aborts the transaction, so a failure
leaves the caller's store unchanged. -/
def convertNeed (s : Store) (needId : Nat) (user : Option Nat) (now : Nat) :
    Except (List (String × String)) (Store × Nat) :=
  match alookup s.needs needId with
  | none => .error [("db", "need does not exist")]
  | some nd =>
    match saveTaskNew s ⟨nd.title, some "A faire", some now, nd.owner, none, none⟩ with
    | .error errs => .error errs
    | .ok (s1, tid) =>
      .ok ({ s1 with
              needs := aset s1.needs needId
                { nd with converted := true, convertedAt := some now, convertedBy := user } },
            tid)

/-- `convert_needs(queryset, user)`: one transaction over a row-locked
selection; convert each member whose `converted` flag is still False, count
the conversions.  The selection is the list of need pks the queryset
matched. -/
def convertNeeds (s : Store) (sel : List Nat) (user : Option Nat) (now : Nat) :
    Except (List (String × String)) (Store × Nat) :=
  match sel with
  | [] => .ok (s, 0)
  | i :: rest =>
    match alookup s.needs i with
    | none => convertNeeds s rest user now
    | some nd =>
      if nd.converted then convertNeeds s rest user now
      else
        match convertNeed s i user now with
        | .error errs => .error errs
        | .ok (s1, _) =>
          match convertNeeds s1 rest user now with
          | .error errs => .error errs
          | .ok (s2, c) => .ok (s2, c + 1)

/-- `NeedViewSet.convert` (api/views.py): 400 "Already converted" when the
need's flag is set, otherwise delegate to `convert_need` and answer 201
with the new task.  (Message copying touches only the Message table, which
is outside this model.) -/
def apiConvertNeed (s : Store) (needId : Nat) (user : Option Nat) (now : Nat) :
    Store × Resp :=
  match alookup s.needs needId with
  | none => (s, .notFound)
  | some nd =>
    if nd.converted then (s, .badRequest [("detail", "Already converted")])
    else
      match convertNeed s needId user now with
      | .ok (s1, tid) => (s1, .created tid)
      | .error errs => (s, .serverError errs)

/-- Outcome of an admin action: a flash message at error or success level
(the success message carries the conversion count). -/
inductive AdminMsg where
  | errorLevel (m : String)
  | successLevel (count : Nat)
  deriving Repr, DecidableEq

/-- `NeedAdmin.convert_selected` (admin.py): staff-only; for each selected
need that is not yet converted, create the Task directly and mark the need;
already-converted needs are skipped with no message of their own.  Ends
with one success-level flash carrying the count. -/
def adminConvertSelected (s : Store) (sel : List Nat) (user : Option Nat)
    (isStaff : Bool) (now : Nat) : Except (List (String × String)) (Store × AdminMsg) :=
  if isStaff then
    match go sel s with
    | .error errs => .error errs
    | .ok (s1, c) => .ok (s1, .successLevel c)
  else
    .ok (s, .errorLevel "Permission refusée: seuls les administrateurs peuvent convertir des besoins.")
where
  go : List Nat → Store → Except (List (String × String)) (Store × Nat)
    | [], st => .ok (st, 0)
    | i :: rest, st =>
      match alookup st.needs i with
      | none => go rest st
      | some nd =>
        if nd.converted then go rest st
        else
          match saveTaskNew st ⟨nd.title, some "A faire", some now, nd.owner, none, none⟩ with
          | .error errs => .error errs
          | .ok (st1, _) =>
            let st2 := { st1 with
              needs := aset st1.needs i
                { nd with converted := true, convertedAt := some now, convertedBy := user } }
            match go rest st2 with
            | .error errs => .error errs
            | .ok (st3, c) => .ok (st3, c + 1)

/-! ### Task relations (`TaskRelationSerializer.validate`, serializers.py;
table and unique constraint from `migrations/0012_taskrelation.py`) -/

/-- The `link_type` choices of the `TaskRelation` table. -/
inductive LinkType where
  | blocks
  | depends
  | relates
  deriving Repr, DecidableEq

/-- `TaskRelationSerializer.validate` on a create (no instance): reject a
self-link on the `dst_task` field, then reject an exact duplicate of an
existing `(src_task, dst_task, link_type)` triple. -/
def validateRelation (rels : List (Nat × Nat × LinkType)) (src dst : Nat) (lt : LinkType) :
    Option (String × String) :=
  if src = dst then some ("dst_task", "Impossible de créer un lien vers la même tâche.")
  else if rels.contains (src, dst, lt) then
    some ("non_field_errors", "Cette relation existe déjà.")
  else none

/-- POST on the relation endpoint: run the serializer validation; on
success INSERT the triple, otherwise answer 400 and leave the table
unchanged. -/
def createRelation (rels : List (Nat × Nat × LinkType)) (src dst : Nat) (lt : LinkType) :
    List (Nat × Nat × LinkType) × Option (String × String) :=
  match validateRelation rels src dst lt with
  | some e => (rels, some e)
  | none => (rels ++ [(src, dst, lt)], none)

/-! ### Snapshot activation (`src/tasks/services/commits.py` `activate_commit`
and the identical transaction body of `TaskAdmin.commits_activate`).

A parsed snapshot mirrors the JSON schema
`{"meta": ..., "tasks": [...], "needs": [...], "users": [...]}`; every field
read with `.get(...)` is optional.  A datetime string is represented by the
instant it parses to, or `none` when the key is absent or `parse_iso`
returned `None`. -/

/-- One entry of the snapshot's `users` list. -/
structure SnapUser where
  username : Option String
  email : Option String
  isStaff : Option Bool
  isActive : Option Bool
  dateJoined : Option Nat
  deriving Repr, DecidableEq

/-- One entry of the snapshot's `tasks` list (owner is a username). -/
structure SnapTask where
  id : Option Nat
  title : Option String
  status : Option String
  createdAt : Option Nat
  owner : Option String
  deriving Repr, DecidableEq

/-- One entry of the snapshot's `needs` list. -/
structure SnapNeed where
  id : Option Nat
  title : Option String
  description : Option String
  createdAt : Option Nat
  owner : Option String
  converted : Option Bool
  convertedAt : Option Nat
  convertedBy : Option String
  deriving Repr, DecidableEq

/-- A parsed snapshot file. -/
structure Snapshot where
  users : List SnapUser
  tasks : List SnapTask
  needs : List SnapNeed
  deriving Repr, DecidableEq

/-- Python truthiness of an optional string (`None` and `""` are falsy). -/
def truthyStr : Option String → Option String
  | some "" => none
  | some s => some s
  | none => none

/-- Find a user row by username (usernames are unique in Django). -/
def findUserByName (s : Store) (uname : String) : Option (Nat × UserRec) :=
  s.users.find? (fun p => p.2.username == uname)

/-- Upsert pass over the snapshot's users, acting on the user table:
`User.objects.update_or_create(username=uname, defaults=...)` plus the
best-effort `date_joined` restore; entries without a truthy username are
skipped.  Returns the table and the created/updated counters. -/
def applyUsersList : List SnapUser → List (Nat × UserRec) → Nat → Nat →
    List (Nat × UserRec) × Nat × Nat
  | [], users, c, u => (users, c, u)
  | x :: rest, users, c, u =>
    match truthyStr x.username with
    | none => applyUsersList rest users c u
    | some uname =>
      match users.find? (fun p => p.2.username == uname) with
      | some p =>
        let r0 := p.2
        let r1 : UserRec :=
          { r0 with
            email := x.email.getD "",
            isStaff := x.isStaff.getD false,
            isActive := x.isActive.getD true }
        let r2 : UserRec :=
          match x.dateJoined with
          | some d => { r1 with dateJoined := some d }
          | none => r1
        applyUsersList rest (aset users p.1 r2) c (u + 1)
      | none =>
        let r : UserRec :=
          ⟨uname, x.email.getD "", x.isStaff.getD false, x.isActive.getD true, x.dateJoined⟩
        applyUsersList rest (users ++ [(freshKey users, r)]) (c + 1) u

/-- The user pass lifted to the whole store (only the user table moves). -/
def applyUsers (us : List SnapUser) (s : Store) (c u : Nat) : Store × Nat × Nat :=
  match applyUsersList us s.users c u with
  | (w, c2, u2) => ({ s with users := w }, c2, u2)

/-- The `username -> user` map built after the user pass:
`{u.username: u for u in User.objects.filter(username__in=usernames)}` —
it resolves only usernames that occur (truthily) in the snapshot. -/
def snapshotUserMap (snap : Snapshot) (s : Store) : String → Option Nat :=
  fun nm =>
    if (snap.users.filterMap (fun u => truthyStr u.username)).contains nm then
      (findUserByName s nm).map (fun p => p.1)
    else none

/-- One iteration of the task upsert loop:
`Task.objects.update_or_create(pk=pk, defaults={'title','status','owner'})`
(each save runs the overridden `Task.save`, hence `full_clean`), then a
best-effort `created_at` restore via a queryset update.  Returns the new
store, whether the row was created (vs updated), and the upserted pk.
A validation error escapes and aborts the enclosing transaction. -/
def applyTask1 (umap : String → Option Nat) (now : Nat) (t : SnapTask) (s : Store) :
    Except (List (String × String)) (Store × Bool × Nat) :=
  let owner : Option Nat :=
    match truthyStr t.owner with
    | some nm => umap nm
    | none => none
  let stamp : Store → Nat → Store := fun st pk =>
    match t.createdAt with
    | some d => setTaskCreatedAt st pk d
    | none => st
  match t.id with
  | some pk =>
    match alookup s.tasks pk with
    | some old =>
      match saveTaskExisting s pk { old with title := t.title, status := t.status, owner := owner } with
      | .error errs => .error errs
      | .ok s1 => .ok (stamp s1 pk, false, pk)
    | none =>
      match createTaskWithPk s pk ⟨t.title, t.status, some now, owner, none, none⟩ with
      | .error errs => .error errs
      | .ok s1 => .ok (stamp s1 pk, true, pk)
  | none =>
    match saveTaskNew s ⟨t.title, t.status, some now, owner, none, none⟩ with
    | .error errs => .error errs
    | .ok (s1, pk) => .ok (stamp s1 pk, true, pk)

/-- Upsert pass over the snapshot's tasks, accumulating the created/updated
counters and the `task_ids` list of upserted pks. -/
def applyTasks (umap : String → Option Nat) (now : Nat) :
    List SnapTask → Store → Nat → Nat → List Nat →
    Except (List (String × String)) (Store × Nat × Nat × List Nat)
  | [], s, c, u, ids => .ok (s, c, u, ids)
  | t :: rest, s, c, u, ids =>
    match applyTask1 umap now t s with
    | .error errs => .error errs
    | .ok (s1, created, pk) =>
      applyTasks umap now rest s1 (if created then c + 1 else c)
        (if created then u else u + 1) (ids ++ [pk])

/-- The conditional `created_at` / `converted_at` / `converted_by` restores
that follow a need upsert (`Need.objects.filter(pk=pk).update(...)`). -/
def needAmend (n : SnapNeed) (cb : Option Nat) (needs : List (Nat × NeedRec)) (pk : Nat) :
    List (Nat × NeedRec) :=
  let l1 := match n.createdAt with
    | some d => amodify needs pk (fun r => { r with createdAt := some d })
    | none => needs
  let l2 := match n.convertedAt with
    | some d => amodify l1 pk (fun r => { r with convertedAt := some d })
    | none => l1
  match cb with
  | some c => amodify l2 pk (fun r => { r with convertedBy := some c })
  | none => l2

/-- One iteration of the need upsert loop:
`Need.objects.update_or_create(pk=pk, defaults=...)` (plain `save`, no
validation), then the conditional restores.  Infallible. -/
def applyNeed1 (umap : String → Option Nat) (now : Nat) (n : SnapNeed) (s : Store) :
    Store × Bool × Nat :=
  let owner : Option Nat :=
    match truthyStr n.owner with
    | some nm => umap nm
    | none => none
  let convertedBy : Option Nat :=
    match truthyStr n.convertedBy with
    | some nm => umap nm
    | none => none
  match n.id with
  | some pk =>
    match alookup s.needs pk with
    | some old =>
      let upd : NeedRec :=
        { old with
          title := n.title,
          description := n.description,
          owner := owner,
          converted := n.converted.getD false }
      ({ s with needs := needAmend n convertedBy (aset s.needs pk upd) pk }, false, pk)
    | none =>
      let fresh : NeedRec :=
        ⟨n.title, n.description, some now, owner, n.converted.getD false, none, none⟩
      ({ s with needs := needAmend n convertedBy (s.needs ++ [(pk, fresh)]) pk }, true, pk)
  | none =>
    let pk := freshKey s.needs
    let fresh : NeedRec :=
      ⟨n.title, n.description, some now, owner, n.converted.getD false, none, none⟩
    ({ s with needs := needAmend n convertedBy (s.needs ++ [(pk, fresh)]) pk }, true, pk)

/-- Upsert pass over the snapshot's needs. -/
def applyNeeds (umap : String → Option Nat) (now : Nat) :
    List SnapNeed → Store → Nat → Nat → List Nat → Store × Nat × Nat × List Nat
  | [], s, c, u, ids => (s, c, u, ids)
  | n :: rest, s, c, u, ids =>
    match applyNeed1 umap now n s with
    | (s1, created, pk) =>
      applyNeeds umap now rest s1 (if created then c + 1 else c)
        (if created then u else u + 1) (ids ++ [pk])

/-- `Task.objects.exclude(pk__in=task_ids).delete()`: drop every task row
whose pk is not in `keep`; the self-referential parent FK has
`on_delete=SET_NULL`, so surviving tasks whose parent row was deleted get
a null parent. -/
def deleteTasksExcept (s : Store) (keep : List Nat) : Store :=
  let deleted := (akeys s.tasks).filter (fun x => ! keep.contains x)
  { s with
    tasks :=
      (s.tasks.filter (fun p => keep.contains p.1)).map
        (fun p =>
          (p.1,
            { p.2 with
              parent :=
                match p.2.parent with
                | some q => if deleted.contains q then none else some q
                | none => none })) }

/-- `Need.objects.exclude(pk__in=need_ids).delete()`. -/
def deleteNeedsExcept (s : Store) (keep : List Nat) : Store :=
  { s with needs := s.needs.filter (fun p => keep.contains p.1) }

/-- The per-entity counters `activate_commit` returns. -/
structure ActSummary where
  createdUsers : Nat
  updatedUsers : Nat
  createdTasks : Nat
  updatedTasks : Nat
  deletedTasks : Nat
  createdNeeds : Nat
  updatedNeeds : Nat
  deletedNeeds : Nat
  deriving Repr, DecidableEq

/-- The `transaction.atomic()` body shared by `activate_commit`
(services/commits.py) and `TaskAdmin.commits_activate` (admin.py):
upsert users, build the username map, upsert tasks and needs by snapshot
pk, then delete every task/need absent from the snapshot.  An error value
is a Python exception escaping the block: the transaction rolls back and
the caller's store stays as it was. -/
def applySnapshot (s : Store) (snap : Snapshot) (now : Nat) :
    Except (List (String × String)) (Store × ActSummary) :=
  match applyUsers snap.users s 0 0 with
  | (s1, cu, uu) =>
    match applyTasks (snapshotUserMap snap s1) now snap.tasks s1 0 0 [] with
    | .error errs => .error errs
    | .ok (s2, ct, ut, tids) =>
      match applyNeeds (snapshotUserMap snap s1) now snap.needs s2 0 0 [] with
      | (s3, cn, un, nids) =>
        .ok (deleteNeedsExcept (deleteTasksExcept s3 tids) nids,
          ⟨cu, uu, ct, ut, (s3.tasks.filter (fun p => ! tids.contains p.1)).length,
            cn, un, (s3.needs.filter (fun p => ! nids.contains p.1)).length⟩)

/-- `activate_commit(path, request_user)` (services/commits.py): read and
parse the snapshot file (`load_snapshot`; any exception propagates to the
caller), then apply it inside one transaction.  The active-pointer file
write after the transaction is outside the database model. -/
def activateCommitService (readRes : Except String Snapshot) (s : Store) (now : Nat) :
    Except (List (String × String)) (Store × ActSummary) :=
  match readRes with
  | .error e => .error [("io", e)]
  | .ok snap => applySnapshot s snap now

/-- What reading `backups/commits/<fname>` produced for the admin view:
the file may be missing, unreadable/malformed, or parse to a snapshot. -/
inductive ReadResult where
  | missing
  | unreadable (e : String)
  | parsed (snap : Snapshot)
  deriving Repr, DecidableEq

/-- Observable outcome of the admin `commits_activate` request: a flash
message (`messages.error` / `messages.success`) with a redirect, or an
exception that escaped the view (no flash, HTTP 500). -/
inductive ActOutcome where
  | flashNotFound
  | flashReadError (e : String)
  | flashSuccess (sum : ActSummary)
  | uncaughtError (errs : List (String × String))
  deriving Repr, DecidableEq

/-- Does the outcome surface to the operator as a flashed error message? -/
def isFlashedError : ActOutcome → Bool
  | .flashNotFound => true
  | .flashReadError _ => true
  | _ => false

/-- `TaskAdmin.commits_activate` (admin.py): 'Version introuvable' when the
file does not exist; read errors (unreadable file, malformed JSON) are
caught by the `try/except` around `json.load` and flashed; the transaction
body itself runs outside any `try`, so an exception raised while applying
the snapshot rolls the transaction back and propagates out of the view. -/
def commitsActivate (s : Store) (r : ReadResult) (now : Nat) : Store × ActOutcome :=
  match r with
  | .missing => (s, .flashNotFound)
  | .unreadable e => (s, .flashReadError e)
  | .parsed snap =>
    match applySnapshot s snap now with
    | .error errs => (s, .uncaughtError errs)
    | .ok (s1, sum) => (s1, .flashSuccess sum)

/-! ### The hierarchy invariant

`HierInv` is the well-formedness of the task table: distinct primary keys,
parent pointers landing on existing rows (the FK constraint), and an
acyclic parent graph. -/

/-- No node returns to itself under iterated steps of `f`. -/
def NoCycleF (f : Nat → Option Nat) : Prop :=
  ∀ x k, iterF f (k + 1) x ≠ some x

/-- Every step of `f` lands in `dom`. -/
def ClosedF (f : Nat → Option Nat) (dom : List Nat) : Prop :=
  ∀ x y, f x = some y → y ∈ dom

/-- Task-table well-formedness: key uniqueness, parent-FK closure,
acyclicity of the parent graph. -/
def HierInv (s : Store) : Prop :=
  (akeys s.tasks).Nodup ∧ ClosedF (pstep s) (akeys s.tasks) ∧ NoCycleF (pstep s)

/-- One successful mutation of the store, as the claims enumerate them:
an API/model task create, a task update, a need conversion, or a snapshot
activation.  (All of them funnel through the overridden `Task.save`.) -/
inductive Step : Store → Store → Prop
  | createTask (s : Store) (t : TaskRec) (s' : Store) (i : Nat)
      (h : saveTaskNew s t = .ok (s', i)) : Step s s'
  | updateTask (s : Store) (i : Nat) (t : TaskRec) (s' : Store)
      (h : saveTaskExisting s i t = .ok s') : Step s s'
  | convert (s : Store) (i : Nat) (u : Option Nat) (now : Nat) (s' : Store) (tid : Nat)
      (h : convertNeed s i u now = .ok (s', tid)) : Step s s'
  | activate (s : Store) (snap : Snapshot) (now : Nat) (s' : Store) (sum : ActSummary)
      (h : applySnapshot s snap now = .ok (s', sum)) : Step s s'

/-- The spec scenario data for the C1 witness. -/
def wOneStore : Store :=
  ⟨[(1, ⟨some "a", some "A faire", some 0, none, none, none⟩),
    (2, ⟨some "b", some "A faire", some 0, none, none, some 1⟩),
    (3, ⟨some "c", some "A faire", some 0, none, none, some 2⟩)], [], [], []⟩

/-- The spec scenario snapshot (task ids 1 and 2) for the C1 witness. -/
def wOneSnap : Snapshot :=
  ⟨[], [⟨some 1, some "a2", some "Fait", none, none⟩,
    ⟨some 2, some "b2", some "En cours", some 7, none⟩], []⟩

/-- The store after activating the C1 witness snapshot. -/
def wOneOut : Store :=
  ⟨[(1, ⟨some "a2", some "Fait", some 0, none, none, none⟩),
    (2, ⟨some "b2", some "En cours", some 7, none, none, some 1⟩)], [], [], []⟩

/-- The spec scenario hierarchy for the C4 witness: Root(1) ← Child(2) ←
Grandchild(3). -/
def wFourStore : Store :=
  ⟨[(1, ⟨some "Root", some "A faire", some 0, none, none, none⟩),
    (2, ⟨some "Child", some "A faire", some 0, none, none, some 1⟩),
    (3, ⟨some "Grandchild", some "A faire", some 0, none, none, some 2⟩)], [], [], []⟩

/-! ### Lemmas and claim theorems -/

@[simp] theorem alookup_nil {α : Type} (i : Nat) : alookup ([] : List (Nat × α)) i = none := rfl

@[simp] theorem alookup_cons {α : Type} (j : Nat) (v : α) (t : List (Nat × α)) (i : Nat) :
    alookup ((j, v) :: t) i = if j = i then some v else alookup t i := rfl

@[simp] theorem akeys_nil {α : Type} : akeys ([] : List (Nat × α)) = [] := rfl

@[simp] theorem akeys_cons {α : Type} (j : Nat) (v : α) (t : List (Nat × α)) :
    akeys ((j, v) :: t) = j :: akeys t := rfl

theorem akeys_append {α : Type} (l₁ l₂ : List (Nat × α)) :
    akeys (l₁ ++ l₂) = akeys l₁ ++ akeys l₂ := by
  simp [akeys]

@[simp] theorem akeys_aset {α : Type} (l : List (Nat × α)) (i : Nat) (v : α) :
    akeys (aset l i v) = akeys l := by
  induction l with
  | nil => rfl
  | cons h t ih =>
    simp only [aset, akeys, List.map_cons]
    by_cases hh : h.1 = i <;> simp_all [aset, akeys]

@[simp] theorem akeys_amodify {α : Type} (l : List (Nat × α)) (i : Nat) (f : α → α) :
    akeys (amodify l i f) = akeys l := by
  induction l with
  | nil => rfl
  | cons h t ih =>
    simp only [amodify, akeys, List.map_cons]
    by_cases hh : h.1 = i <;> simp_all [amodify, akeys]

theorem alookup_mem_keys {α : Type} {l : List (Nat × α)} {i : Nat} {v : α}
    (h : alookup l i = some v) : i ∈ akeys l := by
  induction l with
  | nil => simp [alookup] at h
  | cons hd t ih =>
    rcases hd with ⟨j, w⟩
    rw [akeys_cons]
    by_cases hj : j = i
    · subst hj; exact List.mem_cons_self _ _
    · simp only [alookup_cons, if_neg hj] at h
      exact List.mem_cons_of_mem _ (ih h)

theorem alookup_isSome_of_mem_keys {α : Type} {l : List (Nat × α)} {i : Nat}
    (h : i ∈ akeys l) : (alookup l i).isSome := by
  induction l with
  | nil => simp [akeys] at h
  | cons hd t ih =>
    rcases hd with ⟨j, w⟩
    by_cases hj : j = i
    · simp [alookup_cons, hj]
    · simp only [akeys_cons, List.mem_cons] at h
      rcases h with h | h
      · exact absurd h.symm hj
      · simp [alookup_cons, hj, ih h]

theorem alookup_eq_none_of_not_mem {α : Type} {l : List (Nat × α)} {i : Nat}
    (h : i ∉ akeys l) : alookup l i = none := by
  cases hv : alookup l i with
  | none => rfl
  | some v => exact absurd (alookup_mem_keys hv) h

theorem alookup_append_left {α : Type} {l₁ : List (Nat × α)} (l₂ : List (Nat × α)) {i : Nat}
    {v : α} (h : alookup l₁ i = some v) : alookup (l₁ ++ l₂) i = some v := by
  induction l₁ with
  | nil => simp [alookup] at h
  | cons hd t ih =>
    rcases hd with ⟨j, w⟩
    simp only [List.cons_append, alookup_cons]
    by_cases hj : j = i
    · simpa [alookup_cons, hj] using h
    · simp only [alookup_cons, if_neg hj] at h
      simp only [if_neg hj]
      exact ih h

theorem alookup_append_right {α : Type} {l₁ : List (Nat × α)} (l₂ : List (Nat × α)) {i : Nat}
    (h : i ∉ akeys l₁) : alookup (l₁ ++ l₂) i = alookup l₂ i := by
  induction l₁ with
  | nil => simp
  | cons hd t ih =>
    rcases hd with ⟨j, w⟩
    simp only [akeys_cons, List.mem_cons, not_or] at h
    have hj : j ≠ i := fun hh => h.1 hh.symm
    simp only [List.cons_append, alookup_cons, if_neg hj]
    exact ih h.2

theorem alookup_aset_self {α : Type} {l : List (Nat × α)} {i : Nat} (v : α)
    (h : i ∈ akeys l) : alookup (aset l i v) i = some v := by
  induction l with
  | nil => simp [akeys] at h
  | cons hd t ih =>
    rcases hd with ⟨j, w⟩
    simp only [aset, List.map_cons]
    by_cases hj : j = i
    · simp [hj]
    · simp only [akeys_cons, List.mem_cons] at h
      rcases h with h | h
      · exact absurd h.symm hj
      · simp only [if_neg hj, alookup_cons, if_neg hj]
        exact ih h

theorem alookup_aset_other {α : Type} {l : List (Nat × α)} {i x : Nat} (v : α)
    (h : x ≠ i) : alookup (aset l i v) x = alookup l x := by
  induction l with
  | nil => rfl
  | cons hd t ih =>
    rcases hd with ⟨j, w⟩
    simp only [aset, List.map_cons]
    by_cases hj : j = i
    · subst hj
      have hjx : j ≠ x := fun hh => h hh.symm
      simp only [ite_true, eq_self_iff_true, alookup_cons, if_neg hjx]
      exact ih
    · simp only [if_neg hj, alookup_cons]
      by_cases hx : j = x
      · simp [hx]
      · simp only [if_neg hx]
        exact ih

theorem alookup_amodify_self {α : Type} {l : List (Nat × α)} {i : Nat} {v : α} (f : α → α)
    (h : alookup l i = some v) : alookup (amodify l i f) i = some (f v) := by
  induction l with
  | nil => simp [alookup] at h
  | cons hd t ih =>
    rcases hd with ⟨j, w⟩
    simp only [amodify, List.map_cons]
    by_cases hj : j = i
    · simp only [alookup_cons, if_pos hj] at h
      injection h with h
      subst h
      simp [alookup_cons, if_pos hj]
    · simp only [alookup_cons, if_neg hj] at h
      simp only [if_neg hj, alookup_cons, if_neg hj]
      exact ih h

theorem alookup_amodify_other {α : Type} {l : List (Nat × α)} {i x : Nat} (f : α → α)
    (h : x ≠ i) : alookup (amodify l i f) x = alookup l x := by
  induction l with
  | nil => rfl
  | cons hd t ih =>
    rcases hd with ⟨j, w⟩
    simp only [amodify, List.map_cons]
    by_cases hj : j = i
    · subst hj
      have hjx : j ≠ x := fun hh => h hh.symm
      simp only [ite_true, eq_self_iff_true, alookup_cons, if_neg hjx]
      exact ih
    · simp only [if_neg hj, alookup_cons]
      by_cases hx : j = x
      · simp [hx]
      · simp only [if_neg hx]
        exact ih

theorem le_foldr_max_of_mem {l : List Nat} {x : Nat} (h : x ∈ l) :
    x ≤ l.foldr Nat.max 0 := by
  induction l with
  | nil => simp at h
  | cons hd t ih =>
    rcases List.mem_cons.mp h with h | h
    · subst h; exact Nat.le_max_left _ _
    · exact Nat.le_trans (ih h) (Nat.le_max_right _ _)

theorem freshKey_not_mem {α : Type} (l : List (Nat × α)) : freshKey l ∉ akeys l := by
  intro h
  have h2 := le_foldr_max_of_mem h
  rw [freshKey] at h2
  omega

theorem iterF_succ (f : Nat → Option Nat) (k x : Nat) :
    iterF f (k + 1) x = match f x with
      | none => none
      | some y => iterF f k y := rfl

theorem iterF_add (f : Nat → Option Nat) (a b x : Nat) :
    iterF f (a + b) x = match iterF f a x with
      | none => none
      | some y => iterF f b y := by
  induction a generalizing x with
  | zero => rw [Nat.zero_add]; rfl
  | succ a ih =>
    have hrw : a + 1 + b = (a + b) + 1 := by omega
    rw [hrw, iterF_succ f (a + b) x, iterF_succ f a x]
    cases hfx : f x with
    | none => rfl
    | some y => exact ih y

/-- If the walk from `x` under `f'` never passes through a node where `f'`
and `f` differ, the two walks agree. -/
theorem iterF_congr_avoid {f f' : Nat → Option Nat} {w : Nat}
    (hfw : ∀ y, y ≠ w → f' y = f y) :
    ∀ (m x : Nat), (∀ b, b < m → iterF f' b x ≠ some w) → iterF f' m x = iterF f m x := by
  intro m
  induction m with
  | zero => intro x _; rfl
  | succ m ih =>
    intro x h
    have hx : x ≠ w := by
      intro hh
      exact h 0 (Nat.succ_pos m) (by rw [hh]; rfl)
    rw [iterF_succ, iterF_succ, hfw x hx]
    cases hfx : f x with
    | none => rfl
    | some y =>
      apply ih
      intro b hb hby
      have := h (b + 1) (by omega)
      rw [iterF_succ, hfw x hx, hfx] at this
      exact this hby

/-- Rewiring a single node `w` to a pointer whose old-graph chain never
reaches `w` preserves acyclicity. -/
theorem noCycleF_update (f : Nat → Option Nat) (w : Nat) (pi : Option Nat)
    (hnc : NoCycleF f)
    (hsafe : ∀ p, pi = some p → ∀ k, iterF f k p ≠ some w) :
    NoCycleF (fun y => if y = w then pi else f y) := by
  set f' : Nat → Option Nat := fun y => if y = w then pi else f y with hf'
  have hfw : ∀ y, y ≠ w → f' y = f y := by
    intro y hy; simp [hf', if_neg hy]
  intro x k hx
  by_cases hvisit : ∃ b, b ≤ k ∧ iterF f' b x = some w
  · obtain ⟨b, hb, hbw⟩ := hvisit
    -- rotate the cycle so that it starts at w
    have hsplit : iterF f' (b + (k + 1 - b)) x = some x := by
      have hb2 : b + (k + 1 - b) = k + 1 := by omega
      rw [hb2]; exact hx
    rw [iterF_add f' b (k + 1 - b) x, hbw] at hsplit
    have hsplit2 : iterF f' (k + 1 - b) w = some x := hsplit
    have hcyc : iterF f' (k + 1) w = some w := by
      have h2 : iterF f' ((k + 1 - b) + b) w = some w := by
        rw [iterF_add f' (k + 1 - b) b w, hsplit2]
        exact hbw
      have h3 : (k + 1 - b) + b = k + 1 := by omega
      rwa [h3] at h2
    have hfw' : f' w = pi := by simp [hf']
    cases hpi : pi with
    | none =>
      rw [iterF_succ, hfw', hpi] at hcyc
      exact Option.noConfusion hcyc
    | some p =>
      rw [iterF_succ, hfw', hpi] at hcyc
      have hcyc2 : iterF f' k p = some w := hcyc
      have hex : ∃ a, iterF f' a p = some w := ⟨k, hcyc2⟩
      have ha := Nat.find_spec hex
      have hmin : ∀ b2, b2 < Nat.find hex → iterF f' b2 p ≠ some w :=
        fun b2 hb2 => Nat.find_min hex hb2
      have heq := iterF_congr_avoid hfw (Nat.find hex) p hmin
      exact hsafe p hpi (Nat.find hex) (heq ▸ ha)
  · push_neg at hvisit
    have h2 : ∀ b, b < k + 1 → iterF f' b x ≠ some w := by
      intro b hb
      exact hvisit b (by omega)
    have := iterF_congr_avoid hfw (k + 1) x h2
    exact hnc x k (this ▸ hx)

/-- A graph obtained by deleting edges (pointwise: each node keeps its
pointer or loses it) stays acyclic. -/
theorem noCycleF_restrict (f f' : Nat → Option Nat)
    (h : ∀ y, f' y = f y ∨ f' y = none) (hnc : NoCycleF f) : NoCycleF f' := by
  have key : ∀ (m x z : Nat), iterF f' m x = some z → iterF f m x = some z := by
    intro m
    induction m with
    | zero => intro x z hz; exact hz
    | succ m ih =>
      intro x z hz
      rw [iterF_succ] at hz
      cases hfx : f' x with
      | none => rw [hfx] at hz; exact Option.noConfusion hz
      | some y =>
        rw [hfx] at hz
        rcases h x with heq | hnone
        · rw [iterF_succ, ← heq, hfx]
          exact ih y z hz
        · rw [hfx] at hnone; exact Option.noConfusion hnone
  intro x k hx
  exact hnc x k (key (k + 1) x x hx)

/-- Soundness of the cycle walk: if `_would_create_cycle` answers `False`,
no number of parent steps from the candidate parent reaches pk `i`. -/
theorem wouldCreateCycle_false_sound (s : Store) (i : Nat) :
    ∀ (fuel p : Nat), wouldCreateCycle s (some i) fuel p = false →
      ∀ k, iterP s k p ≠ some i := by
  intro fuel
  induction fuel with
  | zero => intro p h; simp [wouldCreateCycle] at h
  | succ fuel ih =>
    intro p h k
    rw [wouldCreateCycle] at h
    by_cases hpi : some p = (some i : Option Nat)
    · rw [if_pos hpi] at h; exact Bool.noConfusion h
    · rw [if_neg hpi] at h
      have hpne : p ≠ i := fun hh => hpi (by rw [hh])
      cases k with
      | zero =>
        intro hh
        exact hpne (Option.some.inj hh)
      | succ k =>
        cases hps : pstep s p with
        | none =>
          intro hh
          rw [iterP, iterF_succ, hps] at hh
          exact Option.noConfusion hh
        | some nxt =>
          rw [hps] at h
          intro hh
          rw [iterP, iterF_succ, hps] at hh
          exact ih nxt h k hh

/-- Completeness of the cycle walk (contrapositive of soundness): when the
parent chain from `p` does reach `i`, the walk reports a cycle, whatever
the fuel. -/
theorem wouldCreateCycle_true_of_reaches (s : Store) (i : Nat) (fuel p k : Nat)
    (h : iterP s k p = some i) : wouldCreateCycle s (some i) fuel p = true := by
  cases hw : wouldCreateCycle s (some i) fuel p with
  | true => rfl
  | false => exact absurd h (wouldCreateCycle_false_sound s i fuel p hw k)

/-- `Task.clean` success on row `i` certifies that the stored chain from
the new parent never walks back to `i`. -/
theorem cleanTask_nil_safe {s : Store} {i : Nat} {t : TaskRec}
    (h : cleanTask s (some i) t = []) :
    ∀ p, t.parent = some p → ∀ k, iterP s k p ≠ some i := by
  intro p hp k
  rw [cleanTask] at h
  rw [hp] at h
  by_cases hpi : p = i
  · subst hpi
    simp at h
  · have hc : ((some p : Option Nat).isSome && (some p : Option Nat) == some i) = false := by
      simp [hpi]
    rw [hc] at h
    simp only [Bool.false_eq_true, if_false] at h
    by_cases hw : wouldCreateCycle s (some i) (cycleFuel s) p
    · rw [if_pos hw] at h; exact absurd h (by simp)
    · exact wouldCreateCycle_false_sound s i (cycleFuel s) p (by simpa using hw) k

/-! ### How each store operation transforms the parent graph -/

theorem alookup_single {α : Type} (i x : Nat) (t : α) :
    alookup [(i, t)] x = if i = x then some t else none := rfl

theorem alookup_amodify_get {α : Type} (l : List (Nat × α)) (i : Nat) (f : α → α) :
    alookup (amodify l i f) i = (alookup l i).map f := by
  cases hv : alookup l i with
  | none =>
    have hnm : i ∉ akeys l := by
      intro hmem
      have := alookup_isSome_of_mem_keys hmem
      rw [hv] at this
      exact Bool.noConfusion this
    have : i ∉ akeys (amodify l i f) := by rwa [akeys_amodify]
    rw [alookup_eq_none_of_not_mem this]
    rfl
  | some v => rw [alookup_amodify_self f hv]; rfl

theorem akeys_filter_key {α : Type} (l : List (Nat × α)) (q : Nat → Bool) :
    akeys (l.filter (fun p => q p.1)) = (akeys l).filter q := by
  induction l with
  | nil => rfl
  | cons hd t ih =>
    rcases hd with ⟨j, w⟩
    rw [List.filter_cons, akeys_cons, List.filter_cons]
    by_cases hq : q j = true
    · rw [show (q (j, w).1) = true from hq]
      simp [ih]
    · have hq' : q j = false := by simpa using hq
      rw [show (q (j, w).1) = false from hq']
      simp [ih]

theorem alookup_filter_key {α : Type} (l : List (Nat × α)) (q : Nat → Bool) (x : Nat) :
    alookup (l.filter (fun p => q p.1)) x = if q x then alookup l x else none := by
  induction l with
  | nil => simp
  | cons hd t ih =>
    rcases hd with ⟨j, w⟩
    by_cases hq : q j = true
    · by_cases hj : j = x
      · subst hj; simp [List.filter_cons, hq]
      · simp [List.filter_cons, hq, alookup_cons, hj, ih]
    · have hq' : q j = false := by simpa using hq
      by_cases hj : j = x
      · subst hj; simp [List.filter_cons, hq', ih]
      · simp [List.filter_cons, hq', hj, ih]

theorem alookup_map_val {α β : Type} (l : List (Nat × α)) (g : α → β) (x : Nat) :
    alookup (l.map (fun p => (p.1, g p.2))) x = (alookup l x).map g := by
  induction l with
  | nil => rfl
  | cons hd t ih =>
    rcases hd with ⟨j, w⟩
    simp only [List.map_cons, alookup_cons]
    by_cases hj : j = x
    · simp [hj]
    · simp only [if_neg hj]
      exact ih

/-- A step of a closed graph lands in the domain, whatever the number of
steps taken (at least one). -/
theorem iterF_mem_of_closed {f : Nat → Option Nat} {dom : List Nat}
    (hc : ClosedF f dom) : ∀ (k x y : Nat), iterF f (k + 1) x = some y → y ∈ dom := by
  intro k
  induction k with
  | zero =>
    intro x y h
    rw [iterF_succ] at h
    cases hfx : f x with
    | none => rw [hfx] at h; exact Option.noConfusion h
    | some z =>
      rw [hfx] at h
      have : z = y := Option.some.inj h
      exact this ▸ hc x z hfx
  | succ k ih =>
    intro x y h
    rw [iterF_succ] at h
    cases hfx : f x with
    | none => rw [hfx] at h; exact Option.noConfusion h
    | some z => rw [hfx] at h; exact ih z y h

/-- `HierInv` only depends on the key list and the parent graph. -/
theorem hierInv_congr {s s' : Store} (hk : akeys s'.tasks = akeys s.tasks)
    (hp : ∀ x, pstep s' x = pstep s x) (h : HierInv s) : HierInv s' := by
  obtain ⟨hnd, hc, hnc⟩ := h
  have hfe : pstep s' = pstep s := funext hp
  refine ⟨hk ▸ hnd, ?_, ?_⟩
  · rw [hfe, hk]; exact hc
  · rw [hfe]; exact hnc

theorem pstep_aset {s : Store} {i : Nat} (t : TaskRec) (hmem : i ∈ akeys s.tasks) :
    ∀ x, pstep { s with tasks := aset s.tasks i t } x
      = if x = i then t.parent else pstep s x := by
  intro x
  by_cases hx : x = i
  · subst hx
    rw [if_pos rfl]
    show (alookup (aset s.tasks x t) x).bind (fun r => r.parent) = t.parent
    rw [alookup_aset_self t hmem]
    rfl
  · rw [if_neg hx]
    show (alookup (aset s.tasks i t) x).bind (fun r => r.parent) = pstep s x
    rw [alookup_aset_other t hx]
    rfl

theorem pstep_append {s : Store} {i : Nat} (t : TaskRec) (hfresh : i ∉ akeys s.tasks) :
    ∀ x, pstep { s with tasks := s.tasks ++ [(i, t)] } x
      = if x = i then t.parent else pstep s x := by
  intro x
  by_cases hx : x = i
  · subst hx
    rw [if_pos rfl]
    show (alookup (s.tasks ++ [(x, t)]) x).bind (fun r => r.parent) = t.parent
    rw [alookup_append_right _ hfresh, alookup_single, if_pos rfl]
    rfl
  · rw [if_neg hx]
    show (alookup (s.tasks ++ [(i, t)]) x).bind (fun r => r.parent) = pstep s x
    cases hv : alookup s.tasks x with
    | some v =>
      rw [alookup_append_left _ hv]
      unfold pstep
      rw [hv]
    | none =>
      have hnm : x ∉ akeys s.tasks := by
        intro hmem
        have := alookup_isSome_of_mem_keys hmem
        rw [hv] at this
        exact Bool.noConfusion this
      rw [alookup_append_right _ hnm, alookup_single,
        if_neg (fun hh : i = x => hx hh.symm)]
      unfold pstep
      rw [hv]

theorem pstep_setTaskCreatedAt (s : Store) (i d : Nat) :
    ∀ x, pstep (setTaskCreatedAt s i d) x = pstep s x := by
  intro x
  by_cases hx : x = i
  · subst hx
    simp only [pstep, setTaskCreatedAt]
    rw [alookup_amodify_get]
    cases alookup s.tasks x <;> rfl
  · simp only [pstep, setTaskCreatedAt]
    rw [alookup_amodify_other _ hx]

theorem hierInv_setTaskCreatedAt {s : Store} (i d : Nat) (h : HierInv s) :
    HierInv (setTaskCreatedAt s i d) := by
  refine hierInv_congr ?_ (pstep_setTaskCreatedAt s i d) h
  simp [setTaskCreatedAt]

/-- A successful `Task.save` on a fresh row: result shape and invariant
preservation. -/
theorem saveTaskNew_ok {s : Store} {t : TaskRec} {s' : Store} {i : Nat}
    (h : saveTaskNew s t = .ok (s', i)) :
    i = freshKey s.tasks ∧ s' = { s with tasks := s.tasks ++ [(i, t)] } ∧
      fullCleanTask s none t = [] ∧ parentFkOk s t = true := by
  rw [saveTaskNew] at h
  cases hcl : fullCleanTask s none t with
  | cons e rest => rw [hcl] at h; exact Except.noConfusion h
  | nil =>
    rw [hcl] at h
    by_cases hfk : parentFkOk s t
    · rw [if_pos hfk] at h
      injection h with h
      injection h with h1 h2
      exact ⟨h2.symm, by rw [← h1, ← h2], rfl, hfk⟩
    · rw [if_neg hfk] at h
      exact Except.noConfusion h

theorem hierInv_saveTaskNew {s : Store} {t : TaskRec} {s' : Store} {i : Nat}
    (hinv : HierInv s) (h : saveTaskNew s t = .ok (s', i)) : HierInv s' := by
  obtain ⟨hi, hs, _, hfk⟩ := saveTaskNew_ok h
  obtain ⟨hnd, hc, hnc⟩ := hinv
  have hfresh : i ∉ akeys s.tasks := hi ▸ freshKey_not_mem s.tasks
  have hkeys : akeys s'.tasks = akeys s.tasks ++ [i] := by
    rw [hs]; exact akeys_append _ _
  have hps := hs ▸ pstep_append t hfresh
  have hsafe : ∀ p, t.parent = some p → ∀ k, iterF (pstep s) k p ≠ some i := by
    intro p hp k hk
    have hpmem : p ∈ akeys s.tasks := by
      have := hfk
      rw [parentFkOk, hp] at this
      exact List.mem_of_elem_eq_true (by simpa using this)
    cases k with
    | zero =>
      have : p = i := Option.some.inj hk
      exact hfresh (this ▸ hpmem)
    | succ k =>
      exact hfresh (iterF_mem_of_closed hc k p i hk)
  refine ⟨?_, ?_, ?_⟩
  · rw [hkeys]
    refine List.Nodup.append hnd (List.nodup_singleton i) ?_
    intro a ha hb
    rw [List.mem_singleton] at hb
    exact hfresh (hb ▸ ha)
  · intro x y hxy
    rw [hps x] at hxy
    rw [hkeys]
    by_cases hx : x = i
    · rw [if_pos hx] at hxy
      have hpmem : y ∈ akeys s.tasks := by
        have := hfk
        rw [parentFkOk, hxy] at this
        exact List.mem_of_elem_eq_true (by simpa using this)
      exact List.mem_append_left _ hpmem
    · rw [if_neg hx] at hxy
      exact List.mem_append_left _ (hc x y hxy)
  · have heq : pstep s' = fun y => if y = i then t.parent else pstep s y := funext hps
    rw [heq]
    exact noCycleF_update (pstep s) i t.parent hnc hsafe

/-- A successful `Task.save` on an existing row: result shape. -/
theorem saveTaskExisting_ok {s : Store} {i : Nat} {t : TaskRec} {s' : Store}
    (h : saveTaskExisting s i t = .ok s') :
    (∃ old, alookup s.tasks i = some old) ∧
      s' = { s with tasks := aset s.tasks i t } ∧
      fullCleanTask s (some i) t = [] ∧ parentFkOk s t = true := by
  rw [saveTaskExisting] at h
  cases hold : alookup s.tasks i with
  | none => rw [hold] at h; exact Except.noConfusion h
  | some old =>
    rw [hold] at h
    cases hcl : fullCleanTask s (some i) t with
    | cons e rest => rw [hcl] at h; exact Except.noConfusion h
    | nil =>
      rw [hcl] at h
      by_cases hfk : parentFkOk s t
      · rw [if_pos hfk] at h
        injection h with h
        exact ⟨⟨old, rfl⟩, h.symm, rfl, hfk⟩
      · rw [if_neg hfk] at h
        exact Except.noConfusion h

theorem hierInv_saveTaskExisting {s : Store} {i : Nat} {t : TaskRec} {s' : Store}
    (hinv : HierInv s) (h : saveTaskExisting s i t = .ok s') : HierInv s' := by
  obtain ⟨⟨old, hold⟩, hs, hcl, hfk⟩ := saveTaskExisting_ok h
  obtain ⟨hnd, hc, hnc⟩ := hinv
  have hmem : i ∈ akeys s.tasks := alookup_mem_keys hold
  have hkeys : akeys s'.tasks = akeys s.tasks := by rw [hs, akeys_aset]
  have hps := hs ▸ pstep_aset t hmem
  have hclean : cleanTask s (some i) t = [] := by
    rw [fullCleanTask] at hcl
    cases hst : statusOk t.status with
    | true => rw [hst] at hcl; simpa using hcl
    | false => rw [hst] at hcl; exact absurd hcl (by simp)
  have hsafe : ∀ p, t.parent = some p → ∀ k, iterF (pstep s) k p ≠ some i :=
    fun p hp k => cleanTask_nil_safe hclean p hp k
  refine ⟨hkeys ▸ hnd, ?_, ?_⟩
  · intro x y hxy
    rw [hps x] at hxy
    rw [hkeys]
    by_cases hx : x = i
    · rw [if_pos hx] at hxy
      have := hfk
      rw [parentFkOk, hxy] at this
      exact List.mem_of_elem_eq_true (by simpa using this)
    · rw [if_neg hx] at hxy
      exact hc x y hxy
  · have heq : pstep s' = fun y => if y = i then t.parent else pstep s y := funext hps
    rw [heq]
    exact noCycleF_update (pstep s) i t.parent hnc hsafe

/-- A successful explicit-pk insert (activation's create branch). -/
theorem createTaskWithPk_ok {s : Store} {pk : Nat} {t : TaskRec} {s' : Store}
    (h : createTaskWithPk s pk t = .ok s') :
    s' = { s with tasks := s.tasks ++ [(pk, t)] } ∧
      fullCleanTask s (some pk) t = [] ∧ parentFkOk s t = true := by
  rw [createTaskWithPk] at h
  cases hcl : fullCleanTask s (some pk) t with
  | cons e rest => rw [hcl] at h; exact Except.noConfusion h
  | nil =>
    rw [hcl] at h
    by_cases hfk : parentFkOk s t
    · rw [if_pos hfk] at h
      injection h with h
      exact ⟨h.symm, rfl, hfk⟩
    · rw [if_neg hfk] at h
      exact Except.noConfusion h

theorem hierInv_createTaskWithPk {s : Store} {pk : Nat} {t : TaskRec} {s' : Store}
    (hinv : HierInv s) (hfresh : pk ∉ akeys s.tasks) (hparent : t.parent = none)
    (h : createTaskWithPk s pk t = .ok s') : HierInv s' := by
  obtain ⟨hs, _, hfk⟩ := createTaskWithPk_ok h
  obtain ⟨hnd, hc, hnc⟩ := hinv
  have hkeys : akeys s'.tasks = akeys s.tasks ++ [pk] := by
    rw [hs]; exact akeys_append _ _
  have hps := hs ▸ pstep_append t hfresh
  refine ⟨?_, ?_, ?_⟩
  · rw [hkeys]
    refine List.Nodup.append hnd (List.nodup_singleton pk) ?_
    intro a ha hb
    rw [List.mem_singleton] at hb
    exact hfresh (hb ▸ ha)
  · intro x y hxy
    rw [hps x] at hxy
    rw [hkeys]
    by_cases hx : x = pk
    · rw [if_pos hx, hparent] at hxy
      exact Option.noConfusion hxy
    · rw [if_neg hx] at hxy
      exact List.mem_append_left _ (hc x y hxy)
  · have heq : pstep s' = fun y => if y = pk then t.parent else pstep s y := funext hps
    rw [heq]
    refine noCycleF_update (pstep s) pk t.parent hnc ?_
    intro p hp
    rw [hparent] at hp
    exact Option.noConfusion hp

/-- Activation's prune pass preserves the invariant. -/
theorem hierInv_deleteTasksExcept {s : Store} (keep : List Nat) (hinv : HierInv s) :
    HierInv (deleteTasksExcept s keep) := by
  obtain ⟨hnd, hc, hnc⟩ := hinv
  set deleted := (akeys s.tasks).filter (fun x => ! keep.contains x) with hdel
  set g : TaskRec → TaskRec := fun r =>
    { r with
      parent :=
        match r.parent with
        | some q => if deleted.contains q then none else some q
        | none => none } with hg
  have hgp : ∀ r : TaskRec, (g r).parent
      = match r.parent with
        | some q => if deleted.contains q then none else some q
        | none => none := fun r => rfl
  have htasks : (deleteTasksExcept s keep).tasks
      = (s.tasks.filter (fun p => keep.contains p.1)).map (fun p => (p.1, g p.2)) := rfl
  have hlook : ∀ x, alookup (deleteTasksExcept s keep).tasks x
      = if keep.contains x then (alookup s.tasks x).map g else none := by
    intro x
    rw [htasks, alookup_map_val, alookup_filter_key]
    by_cases hk : keep.contains x
    · rw [if_pos hk, if_pos hk]
    · rw [if_neg hk, if_neg hk]; rfl
  have hkeys : akeys (deleteTasksExcept s keep).tasks
      = (akeys s.tasks).filter (fun x => keep.contains x) := by
    rw [htasks]
    have h1 : akeys ((s.tasks.filter (fun p => keep.contains p.1)).map (fun p => (p.1, g p.2)))
        = akeys (s.tasks.filter (fun p => keep.contains p.1)) := by
      simp [akeys, List.map_map]
    rw [h1, akeys_filter_key]
  have hpd : ∀ x, pstep (deleteTasksExcept s keep) x
      = (if keep.contains x then (alookup s.tasks x).map g else none).bind
          (fun t => t.parent) := by
    intro x
    rw [pstep, hlook x]
  have hsome : ∀ x y, pstep (deleteTasksExcept s keep) x = some y →
      pstep s x = some y ∧ keep.contains y = true := by
    intro x y hxy
    rw [hpd x] at hxy
    by_cases hk : keep.contains x = true
    · rw [if_pos hk] at hxy
      cases hv : alookup s.tasks x with
      | none => rw [hv] at hxy; exact Option.noConfusion hxy
      | some r =>
        rw [hv] at hxy
        have hred : (((some r).map g).bind (fun t => t.parent)) = (g r).parent := rfl
        rw [hred, hgp r] at hxy
        cases hpr : r.parent with
        | none => rw [hpr] at hxy; exact Option.noConfusion hxy
        | some q =>
          rw [hpr] at hxy
          have hxy4 : (if deleted.contains q then (none : Option Nat) else some q) = some y := hxy
          by_cases hq : deleted.contains q = true
          · rw [if_pos hq] at hxy4; exact Option.noConfusion hxy4
          · rw [if_neg hq] at hxy4
            have hqy : q = y := Option.some.inj hxy4
            subst hqy
            have hpsq : pstep s x = some q := by
              unfold pstep
              rw [hv]
              exact hpr
            refine ⟨hpsq, ?_⟩
            have hqmem : q ∈ akeys s.tasks := hc x q hpsq
            by_contra hkq
            have hkf : keep.contains q = false := Bool.eq_false_iff.mpr hkq
            have hqdel : q ∈ deleted := by
              rw [hdel, List.mem_filter]
              exact ⟨hqmem, by rw [hkf]; rfl⟩
            exact hq (List.elem_eq_true_of_mem hqdel)
    · rw [if_neg hk] at hxy
      exact Option.noConfusion hxy
  have hdich : ∀ x, pstep (deleteTasksExcept s keep) x = pstep s x
      ∨ pstep (deleteTasksExcept s keep) x = none := by
    intro x
    cases hxy : pstep (deleteTasksExcept s keep) x with
    | none => right; rfl
    | some y => left; exact ((hsome x y hxy).1).symm
  refine ⟨?_, ?_, ?_⟩
  · rw [hkeys]; exact List.Nodup.filter _ hnd
  · intro x y hxy
    obtain ⟨h1, h2⟩ := hsome x y hxy
    rw [hkeys, List.mem_filter]
    exact ⟨hc x y h1, h2⟩
  · exact noCycleF_restrict (pstep s) _ (fun y => (hdich y)) hnc

/-! ### Facts about the activation passes -/

theorem akeys_deleteTasksExcept (s : Store) (keep : List Nat) :
    akeys (deleteTasksExcept s keep).tasks
      = (akeys s.tasks).filter (fun x => keep.contains x) := by
  have h1 : akeys ((s.tasks.filter (fun p => keep.contains p.1)).map
      (fun p => (p.1, { p.2 with
        parent :=
          match p.2.parent with
          | some q =>
            if ((akeys s.tasks).filter (fun x => ! keep.contains x)).contains q then none
            else some q
          | none => none })))
      = akeys (s.tasks.filter (fun p => keep.contains p.1)) := by
    simp [akeys, List.map_map]
  rw [show (deleteTasksExcept s keep).tasks
      = (s.tasks.filter (fun p => keep.contains p.1)).map
        (fun p => (p.1, { p.2 with
          parent :=
            match p.2.parent with
            | some q =>
              if ((akeys s.tasks).filter (fun x => ! keep.contains x)).contains q then none
              else some q
            | none => none })) from rfl]
  rw [h1, akeys_filter_key]

theorem deleteTasksExcept_other (s : Store) (keep : List Nat) :
    (deleteTasksExcept s keep).needs = s.needs ∧
    (deleteTasksExcept s keep).users = s.users ∧
    (deleteTasksExcept s keep).taskTypes = s.taskTypes := ⟨rfl, rfl, rfl⟩

theorem akeys_deleteNeedsExcept (s : Store) (keep : List Nat) :
    akeys (deleteNeedsExcept s keep).needs
      = (akeys s.needs).filter (fun x => keep.contains x) := by
  rw [show (deleteNeedsExcept s keep).needs = s.needs.filter (fun p => keep.contains p.1) from rfl]
  rw [akeys_filter_key]

theorem deleteNeedsExcept_other (s : Store) (keep : List Nat) :
    (deleteNeedsExcept s keep).tasks = s.tasks ∧
    (deleteNeedsExcept s keep).users = s.users ∧
    (deleteNeedsExcept s keep).taskTypes = s.taskTypes := ⟨rfl, rfl, rfl⟩

theorem applyUsers_tables (us : List SnapUser) (s : Store) (c u : Nat) :
    (applyUsers us s c u).1.tasks = s.tasks ∧
    (applyUsers us s c u).1.needs = s.needs ∧
    (applyUsers us s c u).1.taskTypes = s.taskTypes := by
  rw [applyUsers]
  cases applyUsersList us s.users c u with
  | mk w r => exact ⟨rfl, rfl, rfl⟩

/-- The conditional `created_at` restore changes nothing the invariant or
the key set care about. -/
theorem stampFacts (t : SnapTask) (s1 : Store) (pk : Nat) :
    (HierInv s1 → HierInv (match t.createdAt with
        | some d => setTaskCreatedAt s1 pk d
        | none => s1)) ∧
    (match t.createdAt with
        | some d => setTaskCreatedAt s1 pk d
        | none => s1).needs = s1.needs ∧
    (match t.createdAt with
        | some d => setTaskCreatedAt s1 pk d
        | none => s1).users = s1.users ∧
    (match t.createdAt with
        | some d => setTaskCreatedAt s1 pk d
        | none => s1).taskTypes = s1.taskTypes ∧
    akeys (match t.createdAt with
        | some d => setTaskCreatedAt s1 pk d
        | none => s1).tasks = akeys s1.tasks := by
  cases t.createdAt with
  | none => exact ⟨id, rfl, rfl, rfl, rfl⟩
  | some d =>
    refine ⟨hierInv_setTaskCreatedAt pk d, rfl, rfl, rfl, ?_⟩
    have h5 : akeys (setTaskCreatedAt s1 pk d).tasks = akeys s1.tasks :=
      akeys_amodify s1.tasks pk (fun r => { r with createdAt := some d })
    exact h5

/-- Everything `applyTask1` guarantees on success: invariant preservation,
untouched sister tables, the produced pk, and the new key set. -/
theorem applyTask1_ok {umap : String → Option Nat} {now : Nat} {t : SnapTask} {s s' : Store}
    {b : Bool} {pk : Nat} (h : applyTask1 umap now t s = .ok (s', b, pk)) :
    (HierInv s → HierInv s') ∧
    s'.needs = s.needs ∧ s'.users = s.users ∧ s'.taskTypes = s.taskTypes ∧
    (∀ p, t.id = some p → pk = p) ∧
    (∀ x, x ∈ akeys s'.tasks ↔ (x ∈ akeys s.tasks ∨ x = pk)) := by
  rw [applyTask1] at h
  split at h
  next p hid =>
    split at h
    next old hold =>
      split at h
      next errs hsv => exact Except.noConfusion h
      next s1 hsv =>
        injection h with h
        have hs2 : (match t.createdAt with
            | some d => setTaskCreatedAt s1 p d
            | none => s1) = s' := congrArg Prod.fst h
        have hbp := congrArg Prod.snd h
        have hpk : p = pk := congrArg Prod.snd hbp
        obtain ⟨_, hs1, _, _⟩ := saveTaskExisting_ok hsv
        have hmem : p ∈ akeys s.tasks := alookup_mem_keys hold
        obtain ⟨sf1, sf2, sf3, sf4, sf5⟩ := stampFacts t s1 p
        rw [hs2] at sf1 sf2 sf3 sf4 sf5
        refine ⟨?_, ?_, ?_, ?_, ?_, ?_⟩
        · exact fun hinv => sf1 (hierInv_saveTaskExisting hinv hsv)
        · rw [sf2, hs1]
        · rw [sf3, hs1]
        · rw [sf4, hs1]
        · intro p2 hp2
          rw [hid] at hp2
          exact hpk.symm.trans (Option.some.inj hp2)
        · intro x
          have hk1 : akeys s1.tasks = akeys s.tasks := by rw [hs1, akeys_aset]
          rw [sf5, hk1]
          constructor
          · exact fun hx => Or.inl hx
          · rintro (hx | hx)
            · exact hx
            · rw [hx, ← hpk]; exact hmem
    next hold =>
      split at h
      next errs hcr => exact Except.noConfusion h
      next s1 hcr =>
        injection h with h
        have hs2 : (match t.createdAt with
            | some d => setTaskCreatedAt s1 p d
            | none => s1) = s' := congrArg Prod.fst h
        have hbp := congrArg Prod.snd h
        have hpk : p = pk := congrArg Prod.snd hbp
        have hfresh : p ∉ akeys s.tasks := by
          intro hmem
          have h2 := alookup_isSome_of_mem_keys hmem
          rw [hold] at h2
          exact Bool.noConfusion h2
        obtain ⟨hs1, _, _⟩ := createTaskWithPk_ok hcr
        obtain ⟨sf1, sf2, sf3, sf4, sf5⟩ := stampFacts t s1 p
        rw [hs2] at sf1 sf2 sf3 sf4 sf5
        refine ⟨?_, ?_, ?_, ?_, ?_, ?_⟩
        · exact fun hinv => sf1 (hierInv_createTaskWithPk hinv hfresh rfl hcr)
        · rw [sf2, hs1]
        · rw [sf3, hs1]
        · rw [sf4, hs1]
        · intro p2 hp2
          rw [hid] at hp2
          exact hpk.symm.trans (Option.some.inj hp2)
        · intro x
          have hk1 : akeys s1.tasks = akeys s.tasks ++ [p] := by
            rw [hs1]; exact akeys_append _ _
          rw [sf5, hk1, List.mem_append, List.mem_singleton, hpk]
  next hid =>
    split at h
    next errs hsv => exact Except.noConfusion h
    next s1 fpk hsv =>
      injection h with h
      have hs2 : (match t.createdAt with
          | some d => setTaskCreatedAt s1 fpk d
          | none => s1) = s' := congrArg Prod.fst h
      have hbp := congrArg Prod.snd h
      have hpk : fpk = pk := congrArg Prod.snd hbp
      obtain ⟨hfpk, hs1, _, _⟩ := saveTaskNew_ok hsv
      have hfresh : fpk ∉ akeys s.tasks := hfpk ▸ freshKey_not_mem s.tasks
      obtain ⟨sf1, sf2, sf3, sf4, sf5⟩ := stampFacts t s1 fpk
      rw [hs2] at sf1 sf2 sf3 sf4 sf5
      refine ⟨?_, ?_, ?_, ?_, ?_, ?_⟩
      · exact fun hinv => sf1 (hierInv_saveTaskNew hinv hsv)
      · rw [sf2, hs1]
      · rw [sf3, hs1]
      · rw [sf4, hs1]
      · intro p2 hp2
        rw [hid] at hp2
        exact Option.noConfusion hp2
      · intro x
        have hk1 : akeys s1.tasks = akeys s.tasks ++ [fpk] := by
          rw [hs1]; exact akeys_append _ _
        rw [sf5, hk1, List.mem_append, List.mem_singleton, hpk]

theorem akeys_needAmend (n : SnapNeed) (cb : Option Nat) (l : List (Nat × NeedRec)) (pk : Nat) :
    akeys (needAmend n cb l pk) = akeys l := by
  cases hca : n.createdAt <;> cases hcv : n.convertedAt <;> cases cb <;>
    simp [needAmend, hca, hcv, akeys_amodify]

/-- Everything `applyNeed1` guarantees: untouched sister tables, the
produced pk, and the new key set of the need table. -/
theorem applyNeed1_ok {umap : String → Option Nat} {now : Nat} {n : SnapNeed} {s s' : Store}
    {b : Bool} {pk : Nat} (h : applyNeed1 umap now n s = (s', b, pk)) :
    s'.tasks = s.tasks ∧ s'.users = s.users ∧ s'.taskTypes = s.taskTypes ∧
    (∀ p, n.id = some p → pk = p) ∧
    (∀ x, x ∈ akeys s'.needs ↔ (x ∈ akeys s.needs ∨ x = pk)) := by
  rw [applyNeed1] at h
  split at h
  next p hid =>
    split at h
    next old hold =>
      injection h with h1 h2
      injection h2 with hb hpk
      subst hpk
      subst h1
      have hmem : p ∈ akeys s.needs := alookup_mem_keys hold
      refine ⟨rfl, rfl, rfl, ?_, ?_⟩
      · intro p2 hp2
        rw [hid] at hp2
        exact Option.some.inj hp2
      · intro x
        dsimp only
        rw [akeys_needAmend, akeys_aset]
        constructor
        · exact fun hx => Or.inl hx
        · rintro (hx | hx)
          · exact hx
          · rw [hx]; exact hmem
    next hold =>
      injection h with h1 h2
      injection h2 with hb hpk
      subst hpk
      subst h1
      refine ⟨rfl, rfl, rfl, ?_, ?_⟩
      · intro p2 hp2
        rw [hid] at hp2
        exact Option.some.inj hp2
      · intro x
        dsimp only
        rw [akeys_needAmend, akeys_append, akeys_cons, akeys_nil]
        simp [List.mem_append]
  next hid =>
    injection h with h1 h2
    injection h2 with hb hpk
    subst hpk
    subst h1
    refine ⟨rfl, rfl, rfl, ?_, ?_⟩
    · intro p2 hp2
      rw [hid] at hp2
      exact Option.noConfusion hp2
    · intro x
      dsimp only
      rw [akeys_needAmend, akeys_append, akeys_cons, akeys_nil]
      simp [List.mem_append]

/-- Combined facts about the whole task pass. -/
theorem applyTasks_ok {umap : String → Option Nat} {now : Nat} :
    ∀ (ts : List SnapTask) (s : Store) (c u : Nat) (ids : List Nat)
      (s' : Store) (c' u' : Nat) (ids' : List Nat),
      applyTasks umap now ts s c u ids = .ok (s', c', u', ids') →
      (HierInv s → HierInv s') ∧
      s'.needs = s.needs ∧ s'.users = s.users ∧ s'.taskTypes = s.taskTypes ∧
      ((∀ t ∈ ts, (SnapTask.id t).isSome) →
        ids' = ids ++ ts.filterMap SnapTask.id ∧
        (∀ x, x ∈ akeys s'.tasks ↔ (x ∈ akeys s.tasks ∨ x ∈ ts.filterMap SnapTask.id))) := by
  intro ts
  induction ts with
  | nil =>
    intro s c u ids s' c' u' ids' h
    rw [applyTasks] at h
    injection h with h
    injection h with h1 h2
    injection h2 with h2 h3
    injection h3 with h3 h4
    subst h1
    subst h4
    refine ⟨fun hv => hv, rfl, rfl, rfl, fun _ => ⟨by simp, fun x => by simp⟩⟩
  | cons t rest ih =>
    intro s c u ids s' c' u' ids' h
    rw [applyTasks] at h
    split at h
    next errs h1 => exact Except.noConfusion h
    next s1 created pk1 h1 =>
      obtain ⟨a1, a2, a3, a4, a5, a6⟩ := applyTask1_ok h1
      obtain ⟨b1, b2, b3, b4, b5⟩ := ih s1 _ _ (ids ++ [pk1]) s' c' u' ids' h
      refine ⟨fun hinv => b1 (a1 hinv), b2.trans a2, b3.trans a3, b4.trans a4, ?_⟩
      intro hids
      have hsome : (SnapTask.id t).isSome := hids t (List.mem_cons_self _ _)
      obtain ⟨p, hp⟩ := Option.isSome_iff_exists.mp hsome
      have hpk : pk1 = p := a5 p hp
      subst hpk
      have hfm : (t :: rest).filterMap SnapTask.id = pk1 :: rest.filterMap SnapTask.id := by
        simp [List.filterMap_cons, hp]
      obtain ⟨c1, c2⟩ := b5 (fun t2 ht2 => hids t2 (List.mem_cons_of_mem _ ht2))
      constructor
      · rw [c1, hfm, List.append_assoc]
        rfl
      · intro x
        rw [c2 x, hfm, List.mem_cons]
        rw [a6 x]
        tauto

/-- Combined facts about the whole need pass. -/
theorem applyNeeds_ok {umap : String → Option Nat} {now : Nat} :
    ∀ (ns : List SnapNeed) (s : Store) (c u : Nat) (ids : List Nat)
      (s' : Store) (c' u' : Nat) (ids' : List Nat),
      applyNeeds umap now ns s c u ids = (s', c', u', ids') →
      s'.tasks = s.tasks ∧ s'.users = s.users ∧ s'.taskTypes = s.taskTypes ∧
      ((∀ n ∈ ns, (SnapNeed.id n).isSome) →
        ids' = ids ++ ns.filterMap SnapNeed.id ∧
        (∀ x, x ∈ akeys s'.needs ↔ (x ∈ akeys s.needs ∨ x ∈ ns.filterMap SnapNeed.id))) := by
  intro ns
  induction ns with
  | nil =>
    intro s c u ids s' c' u' ids' h
    rw [applyNeeds] at h
    injection h with h1 h2
    injection h2 with h2 h3
    injection h3 with h3 h4
    subst h1
    subst h4
    refine ⟨rfl, rfl, rfl, fun _ => ⟨by simp, fun x => by simp⟩⟩
  | cons n rest ih =>
    intro s c u ids s' c' u' ids' h
    rw [applyNeeds] at h
    cases h1 : applyNeed1 umap now n s with
    | mk s1 rest2 =>
      rcases rest2 with ⟨created, pk1⟩
      rw [h1] at h
      obtain ⟨a1, a2, a3, a4, a5⟩ := applyNeed1_ok h1
      obtain ⟨b1, b2, b3, b4⟩ := ih s1 _ _ (ids ++ [pk1]) s' c' u' ids' h
      refine ⟨b1.trans a1, b2.trans a2, b3.trans a3, ?_⟩
      intro hids
      have hsome : (SnapNeed.id n).isSome := hids n (List.mem_cons_self _ _)
      obtain ⟨p, hp⟩ := Option.isSome_iff_exists.mp hsome
      have hpk : pk1 = p := a4 p hp
      subst hpk
      have hfm : (n :: rest).filterMap SnapNeed.id = pk1 :: rest.filterMap SnapNeed.id := by
        simp [List.filterMap_cons, hp]
      obtain ⟨c1, c2⟩ := b4 (fun n2 hn2 => hids n2 (List.mem_cons_of_mem _ hn2))
      constructor
      · rw [c1, hfm, List.append_assoc]
        rfl
      · intro x
        rw [c2 x, hfm, List.mem_cons]
        rw [a5 x]
        tauto

/-- The transaction body of activation: invariant preservation and the
resulting primary-key sets (for snapshots whose entries carry ids, which is
what `create_commit` always writes). -/
theorem applySnapshot_ok {s : Store} {snap : Snapshot} {now : Nat} {s' : Store}
    {sum : ActSummary} (h : applySnapshot s snap now = .ok (s', sum)) :
    (HierInv s → HierInv s') ∧
    ((∀ t ∈ snap.tasks, (SnapTask.id t).isSome) →
      ∀ x, x ∈ akeys s'.tasks ↔ x ∈ snap.tasks.filterMap SnapTask.id) ∧
    ((∀ n ∈ snap.needs, (SnapNeed.id n).isSome) →
      ∀ x, x ∈ akeys s'.needs ↔ x ∈ snap.needs.filterMap SnapNeed.id) := by
  rw [applySnapshot] at h
  split at h
  next s1 cu uu hu =>
    split at h
    next errs ht => exact Except.noConfusion h
    next s2 ct ut tids ht =>
      split at h
      next s3 cn un nids hn =>
        injection h with h
        injection h with h1 h2
        obtain ⟨e1, e2, e3⟩ := applyUsers_tables snap.users s 0 0
        rw [hu] at e1 e2 e3
        obtain ⟨b1, b2, b3, b4, b5⟩ := applyTasks_ok snap.tasks s1 0 0 [] s2 ct ut tids ht
        obtain ⟨d1, d2, d3, d4⟩ := applyNeeds_ok snap.needs s2 0 0 [] s3 cn un nids hn
        subst h1
        have hfin : (deleteNeedsExcept (deleteTasksExcept s3 tids) nids).tasks
            = (deleteTasksExcept s3 tids).tasks := rfl
        refine ⟨?_, ?_, ?_⟩
        · intro hinv
          have hinv1 : HierInv s1 := by
            refine hierInv_congr ?_ ?_ hinv
            · rw [e1]
            · intro x
              rw [pstep, pstep, e1]
          have hinv2 : HierInv s2 := b1 hinv1
          have hinv3 : HierInv s3 := by
            refine hierInv_congr ?_ ?_ hinv2
            · rw [d1]
            · intro x
              rw [pstep, pstep, d1]
          have hinv4 : HierInv (deleteTasksExcept s3 tids) :=
            hierInv_deleteTasksExcept tids hinv3
          refine hierInv_congr ?_ ?_ hinv4
          · rw [hfin]
          · intro x
            rw [pstep, pstep, hfin]
        · intro hids x
          obtain ⟨c1, c2⟩ := b5 hids
          have htids : tids = snap.tasks.filterMap SnapTask.id := by
            rw [c1]; simp
          have hk : akeys (deleteNeedsExcept (deleteTasksExcept s3 tids) nids).tasks
              = (akeys s3.tasks).filter (fun y => tids.contains y) := by
            rw [hfin, akeys_deleteTasksExcept]
          rw [hk, List.mem_filter]
          have hk3 : akeys s3.tasks = akeys s2.tasks := by rw [d1]
          rw [hk3]
          constructor
          · rintro ⟨hx1, hx2⟩
            rw [← htids]
            exact List.mem_of_elem_eq_true hx2
          · intro hx
            have hxt : x ∈ tids := by rw [htids]; exact hx
            refine ⟨?_, List.elem_eq_true_of_mem hxt⟩
            rw [c2 x]
            right
            rw [← htids]
            exact hxt
        · intro hids x
          obtain ⟨c1, c2⟩ := d4 hids
          have hnids : nids = snap.needs.filterMap SnapNeed.id := by
            rw [c1]; simp
          have hk : akeys (deleteNeedsExcept (deleteTasksExcept s3 tids) nids).needs
              = (akeys (deleteTasksExcept s3 tids).needs).filter (fun y => nids.contains y) :=
            akeys_deleteNeedsExcept _ _
          have hk2 : (deleteTasksExcept s3 tids).needs = s3.needs := rfl
          rw [hk, hk2, List.mem_filter]
          have hk3 : akeys s3.needs = akeys s3.needs := rfl
          constructor
          · rintro ⟨hx1, hx2⟩
            rw [← hnids]
            exact List.mem_of_elem_eq_true hx2
          · intro hx
            have hxn : x ∈ nids := by rw [hnids]; exact hx
            refine ⟨?_, List.elem_eq_true_of_mem hxn⟩
            rw [c2 x]
            right
            rw [← hnids]
            exact hxn

/-! ### `convert_need` in closed form, and the operation step relation -/

/-- `convert_need` on an existing need, computed: one new task row with the
need's title, status `'A faire'`, the need's owner and no task type, plus
the need marked converted. -/
theorem convertNeed_eq {s : Store} {i : Nat} {nd : NeedRec} (u : Option Nat) (now : Nat)
    (hnd : alookup s.needs i = some nd) :
    convertNeed s i u now = .ok
      ({ s with
          tasks := s.tasks ++
            [(freshKey s.tasks, ⟨nd.title, some "A faire", some now, nd.owner, none, none⟩)],
          needs := aset s.needs i
            { nd with converted := true, convertedAt := some now, convertedBy := u } },
        freshKey s.tasks) := by
  rw [convertNeed, hnd]
  rfl

/-- A successful `convert_need` preserves the hierarchy invariant. -/
theorem hierInv_convertNeed {s : Store} {i : Nat} {u : Option Nat} {now : Nat}
    {s' : Store} {tid : Nat} (hinv : HierInv s)
    (h : convertNeed s i u now = .ok (s', tid)) : HierInv s' := by
  rw [convertNeed] at h
  split at h
  next hnd => exact Except.noConfusion h
  next nd hnd =>
    split at h
    next errs hsv => exact Except.noConfusion h
    next s1 t1 hsv =>
      injection h with h
      injection h with h1 h2
      have hinv1 : HierInv s1 := hierInv_saveTaskNew hinv hsv
      refine hierInv_congr ?_ ?_ hinv1
      · rw [← h1]
      · intro x
        rw [pstep, pstep, ← h1]

theorem hierInv_step {s s' : Store} (hinv : HierInv s) (h : Step s s') : HierInv s' := by
  cases h with
  | createTask t s2 i h2 => exact hierInv_saveTaskNew hinv h2
  | updateTask i t s2 h2 => exact hierInv_saveTaskExisting hinv h2
  | convert i u now s2 tid h2 => exact hierInv_convertNeed hinv h2
  | activate snap now s2 sum h2 => exact (applySnapshot_ok h2).1 hinv

theorem hierInv_reach {s0 s : Store} (hinv : HierInv s0)
    (h : Relation.ReflTransGen Step s0 s) : HierInv s := by
  induction h with
  | refl => exact hinv
  | tail _ hstep ih => exact hierInv_step ih hstep

theorem hierInv_empty : HierInv Store.empty := by
  refine ⟨List.nodup_nil, ?_, ?_⟩
  · intro x y hxy
    rw [pstep] at hxy
    rw [show alookup Store.empty.tasks x = none from rfl] at hxy
    exact Option.noConfusion hxy
  · intro x k hx
    have hx2 : iterF (pstep Store.empty) (k + 1) x = some x := hx
    rw [iterF_succ] at hx2
    rw [show pstep Store.empty x = none from rfl] at hx2
    exact Option.noConfusion hx2

/-- Under the invariant every parent chain is finite: iterating the parent
map eventually falls off the end.  (Pigeonhole over the key set.) -/
theorem chain_halts {s : Store} (hinv : HierInv s) (x : Nat) :
    ∃ m, iterP s m x = none := by
  by_contra hno
  push_neg at hno
  obtain ⟨hnd, hc, hnc⟩ := hinv
  have hsome : ∀ m, ∃ y, iterP s m x = some y := by
    intro m
    cases hm : iterP s m x with
    | none => exact absurd hm (hno m)
    | some y => exact ⟨y, rfl⟩
  have key : ∀ a b, a < b → iterP s (a + 1) x = iterP s (b + 1) x → False := by
    intro a b hab hval
    obtain ⟨y, hy⟩ := hsome (a + 1)
    have hy2 : iterP s (b + 1) x = some y := hval ▸ hy
    have hsplit : iterF (pstep s) ((a + 1) + (b - a)) x = some y := by
      rw [show (a + 1) + (b - a) = b + 1 from by omega]
      exact hy2
    have hyF : iterF (pstep s) (a + 1) x = some y := hy
    rw [iterF_add (pstep s) (a + 1) (b - a) x, hyF] at hsplit
    have h2 : iterF (pstep s) (b - a) y = some y := hsplit
    rw [show b - a = (b - a - 1) + 1 from by omega] at h2
    exact hnc y (b - a - 1) h2
  let n := (akeys s.tasks).length
  have hmap : ∀ m ∈ Finset.range (n + 1),
      ((iterP s (m + 1) x).getD 0) ∈ (akeys s.tasks).toFinset := by
    intro m _
    obtain ⟨y, hy⟩ := hsome (m + 1)
    rw [hy]
    rw [List.mem_toFinset]
    exact iterF_mem_of_closed hc m x y hy
  have hcard : (akeys s.tasks).toFinset.card < (Finset.range (n + 1)).card := by
    rw [Finset.card_range]
    have hle := (akeys s.tasks).toFinset_card_le
    omega
  obtain ⟨a, ha, b, hb, hab, heq⟩ :=
    Finset.exists_ne_map_eq_of_card_lt_of_maps_to hcard hmap
  obtain ⟨ya, hya⟩ := hsome (a + 1)
  obtain ⟨yb, hyb⟩ := hsome (b + 1)
  have hval : iterP s (a + 1) x = iterP s (b + 1) x := by
    rw [hya, hyb]
    rw [hya, hyb] at heq
    simp only [Option.getD_some] at heq
    rw [heq]
  rcases Nat.lt_or_ge a b with hlt | hge
  · exact key a b hlt hval
  · have hlt : b < a := Nat.lt_of_le_of_ne hge (fun hh => hab hh.symm)
    exact key b a hlt hval.symm

/-! ### Claim theorems -/

/-- C6: for every need in the store, `convert_need(need, user)` atomically
creates exactly one new Task whose title equals the need's title, whose
status is `'A faire'` and whose owner is the need's owner, and marks the
need converted with `converted_at = now` and `converted_by = user` — the
returned store is exactly the old one plus that one task row and that one
need update, so a failure inside the transaction would leave nothing of it
behind. -/
theorem claim_C6 (s : Store) (i : Nat) (nd : NeedRec) (u : Option Nat) (now : Nat)
    (hnd : alookup s.needs i = some nd) :
    convertNeed s i u now = .ok
      ({ s with
          tasks := s.tasks ++
            [(freshKey s.tasks, ⟨nd.title, some "A faire", some now, nd.owner, none, none⟩)],
          needs := aset s.needs i
            { nd with converted := true, convertedAt := some now, convertedBy := u } },
        freshKey s.tasks) :=
  convertNeed_eq u now hnd

/-- C6 witness at a concrete need. -/
theorem claim_C6_witness :
    alookup (⟨[], [(4, ⟨some "Besoin A", some "d", some 1, some 2, false, none, none⟩)],
        [], []⟩ : Store).needs 4
      = some ⟨some "Besoin A", some "d", some 1, some 2, false, none, none⟩ ∧
    convertNeed ⟨[], [(4, ⟨some "Besoin A", some "d", some 1, some 2, false, none, none⟩)], [], []⟩
        4 (some 9) 11
      = .ok
        (⟨[(1, ⟨some "Besoin A", some "A faire", some 11, some 2, none, none⟩)],
          [(4, ⟨some "Besoin A", some "d", some 1, some 2, true, some 11, some 9⟩)],
          [], []⟩, 1) := by
  refine ⟨rfl, ?_⟩
  have h := claim_C6 ⟨[], [(4, ⟨some "Besoin A", some "d", some 1, some 2, false, none, none⟩)], [], []⟩
    4 ⟨some "Besoin A", some "d", some 1, some 2, false, none, none⟩ (some 9) 11 rfl
  exact h.trans (by rfl)

/-- C10: the service `convert_need` has no already-converted guard of its
own: on a need whose `converted` flag is already True it still succeeds,
creates one more Task with the same title and owner, and overwrites
`converted_at` and `converted_by` with the new instant and user. -/
theorem claim_C10 (s : Store) (i : Nat) (nd : NeedRec) (u : Option Nat) (now : Nat)
    (hnd : alookup s.needs i = some nd) (_hconv : nd.converted = true) :
    ∃ s2, convertNeed s i u now = .ok (s2, freshKey s.tasks) ∧
      s2.tasks = s.tasks ++
        [(freshKey s.tasks, ⟨nd.title, some "A faire", some now, nd.owner, none, none⟩)] ∧
      alookup s2.needs i
        = some { nd with converted := true, convertedAt := some now, convertedBy := u } := by
  refine ⟨_, convertNeed_eq u now hnd, rfl, ?_⟩
  exact alookup_aset_self _ (alookup_mem_keys hnd)

/-- C10 witness at a concrete already-converted need. -/
theorem claim_C10_witness :
    alookup (⟨[(3, ⟨some "t", some "Fait", some 0, none, none, none⟩)],
        [(4, ⟨some "Besoin B", some "", some 1, some 2, true, some 2, some 5⟩)],
        [], []⟩ : Store).needs 4
      = some ⟨some "Besoin B", some "", some 1, some 2, true, some 2, some 5⟩ ∧
    (⟨some "Besoin B", some "", some 1, some 2, true, some 2, some 5⟩ : NeedRec).converted = true ∧
    ∃ s2, convertNeed ⟨[(3, ⟨some "t", some "Fait", some 0, none, none, none⟩)],
        [(4, ⟨some "Besoin B", some "", some 1, some 2, true, some 2, some 5⟩)], [], []⟩
        4 (some 7) 9 = .ok (s2, 4) ∧
      s2.tasks = [(3, ⟨some "t", some "Fait", some 0, none, none, none⟩),
        (4, ⟨some "Besoin B", some "A faire", some 9, some 2, none, none⟩)] ∧
      alookup s2.needs 4
        = some ⟨some "Besoin B", some "", some 1, some 2, true, some 9, some 7⟩ := by
  refine ⟨rfl, rfl, ?_⟩
  exact claim_C10 _ 4 ⟨some "Besoin B", some "", some 1, some 2, true, some 2, some 5⟩
    (some 7) 9 rfl rfl

/-- C5: creating a task relation with `src = dst` is rejected (for every
link type) with the store unchanged; an exact duplicate of an existing
`(src, dst, link_type)` triple is rejected with the store unchanged; and
after a successful create, immediately repeating the same triple is
rejected on the second attempt. -/
theorem claim_C5 (rels : List (Nat × Nat × LinkType)) (src dst : Nat) (lt : LinkType) :
    (src = dst → createRelation rels src dst lt
      = (rels, some ("dst_task", "Impossible de créer un lien vers la même tâche."))) ∧
    (src ≠ dst → (src, dst, lt) ∈ rels → createRelation rels src dst lt
      = (rels, some ("non_field_errors", "Cette relation existe déjà."))) ∧
    (∀ rels2, createRelation rels src dst lt = (rels2, none) →
      createRelation rels2 src dst lt
        = (rels2, some ("non_field_errors", "Cette relation existe déjà."))) := by
  refine ⟨?_, ?_, ?_⟩
  · intro hsd
    simp [createRelation, validateRelation, hsd]
  · intro hsd hmem
    simp [createRelation, validateRelation, hsd, hmem]
  · intro rels2 hok
    have hval : validateRelation rels src dst lt = none := by
      cases hv : validateRelation rels src dst lt with
      | none => rfl
      | some e =>
        rw [createRelation, hv] at hok
        have := congrArg Prod.snd hok
        exact Option.noConfusion this
    have hsd : src ≠ dst := by
      intro hsd
      rw [validateRelation, if_pos hsd] at hval
      exact Option.noConfusion hval
    have hrels2 : rels2 = rels ++ [(src, dst, lt)] := by
      rw [createRelation, hval] at hok
      exact (congrArg Prod.fst hok).symm
    have hmem : (src, dst, lt) ∈ rels2 := by
      rw [hrels2]
      exact List.mem_append_right _ (List.mem_singleton_self _)
    simp [createRelation, validateRelation, hsd, hmem]

/-- C5 witness at concrete relations. -/
theorem claim_C5_witness :
    createRelation [] 1 1 LinkType.blocks
      = ([], some ("dst_task", "Impossible de créer un lien vers la même tâche.")) ∧
    createRelation [(1, 2, LinkType.blocks)] 1 2 LinkType.blocks
      = ([(1, 2, LinkType.blocks)], some ("non_field_errors", "Cette relation existe déjà.")) ∧
    createRelation [(1, 2, LinkType.blocks)] 1 2 LinkType.blocks
      = ([(1, 2, LinkType.blocks)], some ("non_field_errors", "Cette relation existe déjà.")) := by
  refine ⟨(claim_C5 [] 1 1 LinkType.blocks).1 rfl,
    (claim_C5 [(1, 2, LinkType.blocks)] 1 2 LinkType.blocks).2.1 (by decide) (by decide), ?_⟩
  exact (claim_C5 [] 1 2 LinkType.blocks).2.2 [(1, 2, LinkType.blocks)] rfl

/-- C7: POSTing convert on an already-converted need answers HTTP 400
'Already converted' and changes nothing; the bulk admin action and the
batch service skip such a need silently — a success-level message with
count 0 and an unchanged store, no error reported. -/
theorem claim_C7 (s : Store) (i : Nat) (nd : NeedRec) (u : Option Nat) (now : Nat)
    (hnd : alookup s.needs i = some nd) (hconv : nd.converted = true) :
    apiConvertNeed s i u now = (s, Resp.badRequest [("detail", "Already converted")]) ∧
    adminConvertSelected s [i] u true now = .ok (s, AdminMsg.successLevel 0) ∧
    convertNeeds s [i] u now = .ok (s, 0) := by
  refine ⟨?_, ?_, ?_⟩
  · simp [apiConvertNeed, hnd, hconv]
  · simp [adminConvertSelected, adminConvertSelected.go, hnd, hconv]
  · simp [convertNeeds, hnd, hconv]

/-- C7 witness at a concrete converted need. -/
theorem claim_C7_witness :
    apiConvertNeed ⟨[], [(4, ⟨some "Besoin A", none, some 1, none, true, some 3, some 2⟩)], [], []⟩
        4 none 11
      = (⟨[], [(4, ⟨some "Besoin A", none, some 1, none, true, some 3, some 2⟩)], [], []⟩,
          Resp.badRequest [("detail", "Already converted")]) ∧
    adminConvertSelected ⟨[], [(4, ⟨some "Besoin A", none, some 1, none, true, some 3, some 2⟩)], [], []⟩
        [4] none true 11
      = .ok (⟨[], [(4, ⟨some "Besoin A", none, some 1, none, true, some 3, some 2⟩)], [], []⟩,
          AdminMsg.successLevel 0) := by
  have h := claim_C7 ⟨[], [(4, ⟨some "Besoin A", none, some 1, none, true, some 3, some 2⟩)], [], []⟩
    4 ⟨some "Besoin A", none, some 1, none, true, some 3, some 2⟩ none 11 rfl rfl
  exact ⟨h.1, h.2.1⟩

/-- C2 counterexample: a snapshot whose apply phase raises (a task entry
with an invalid status makes `update_or_create → Task.save → full_clean`
throw inside the transaction) is NOT caught by `commits_activate` — the
outcome is a propagated exception, not a flashed error message (the store
is still rolled back to its old value). -/
theorem claim_C2_counterexample :
    commitsActivate ⟨[(1, ⟨some "a", some "A faire", some 0, none, none, none⟩)], [], [], []⟩
        (ReadResult.parsed ⟨[], [⟨some 9, some "x", some "Bogus", none, none⟩], []⟩) 5
      = (⟨[(1, ⟨some "a", some "A faire", some 0, none, none, none⟩)], [], [], []⟩,
          ActOutcome.uncaughtError
            [("status", "Statut invalide, veuillez choisir : A faire, En cours, Fait")]) ∧
    isFlashedError (ActOutcome.uncaughtError
        [("status", "Statut invalide, veuillez choisir : A faire, En cours, Fait")]) = false := by
  exact ⟨rfl, rfl⟩

/-- C2 (amended): in the admin activation view, a missing file and a
read/parse failure are caught and surfaced as flashed error messages with
the store untouched; an exception raised while applying the snapshot
propagates uncaught, but the transaction still rolls back — in every
outcome that is not a success flash, the store is exactly as before. -/
theorem claim_C2 (s : Store) (r : ReadResult) (now : Nat) :
    (∀ e, r = ReadResult.unreadable e →
      commitsActivate s r now = (s, ActOutcome.flashReadError e)) ∧
    (r = ReadResult.missing → commitsActivate s r now = (s, ActOutcome.flashNotFound)) ∧
    ((commitsActivate s r now).1 = s ∨
      ∃ sum, (commitsActivate s r now).2 = ActOutcome.flashSuccess sum) := by
  refine ⟨?_, ?_, ?_⟩
  · intro e he
    rw [he]
    rfl
  · intro he
    rw [he]
    rfl
  · cases r with
    | missing => left; rfl
    | unreadable e => left; rfl
    | parsed snap =>
      cases ha : applySnapshot s snap now with
      | error errs =>
        left
        simp [commitsActivate, ha]
      | ok pr =>
        right
        exact ⟨pr.2, by simp [commitsActivate, ha]⟩

/-- C2 witness: a concrete unreadable file is flashed with the store
unchanged, and a concrete apply-phase failure leaves the store unchanged. -/
theorem claim_C2_witness :
    commitsActivate ⟨[(1, ⟨some "a", some "A faire", some 0, none, none, none⟩)], [], [], []⟩
        (ReadResult.unreadable "Expecting value: line 1 column 1") 5
      = (⟨[(1, ⟨some "a", some "A faire", some 0, none, none, none⟩)], [], [], []⟩,
          ActOutcome.flashReadError "Expecting value: line 1 column 1") ∧
    ((commitsActivate ⟨[(1, ⟨some "a", some "A faire", some 0, none, none, none⟩)], [], [], []⟩
        (ReadResult.parsed ⟨[], [⟨some 9, some "x", some "Bogus", none, none⟩], []⟩) 5).1
      = ⟨[(1, ⟨some "a", some "A faire", some 0, none, none, none⟩)], [], [], []⟩ ∨
      ∃ sum, (commitsActivate ⟨[(1, ⟨some "a", some "A faire", some 0, none, none, none⟩)], [], [], []⟩
        (ReadResult.parsed ⟨[], [⟨some 9, some "x", some "Bogus", none, none⟩], []⟩) 5).2
        = ActOutcome.flashSuccess sum) := by
  refine ⟨?_, ?_⟩
  · exact (claim_C2 ⟨[(1, ⟨some "a", some "A faire", some 0, none, none, none⟩)], [], [], []⟩
      (ReadResult.unreadable "Expecting value: line 1 column 1") 5).1
      "Expecting value: line 1 column 1" rfl
  · exact (claim_C2 ⟨[(1, ⟨some "a", some "A faire", some 0, none, none, none⟩)], [], [], []⟩
      (ReadResult.parsed ⟨[], [⟨some 9, some "x", some "Bogus", none, none⟩], []⟩) 5).2.2

/-- C1: a successful `activate_commit` on a snapshot file (whose task and
need entries carry ids, as `create_commit` always writes) leaves the store
with exactly the snapshot's task ids as task primary keys — tasks absent
from the snapshot are deleted, listed ones created or updated — and
likewise for needs. -/
theorem claim_C1 (r : Except String Snapshot) (s : Store) (now : Nat)
    (snap : Snapshot) (s2 : Store) (sum : ActSummary)
    (hr : r = .ok snap)
    (hts : ∀ t ∈ snap.tasks, (SnapTask.id t).isSome)
    (hns : ∀ n ∈ snap.needs, (SnapNeed.id n).isSome)
    (h : activateCommitService r s now = .ok (s2, sum)) :
    (∀ x, x ∈ akeys s2.tasks ↔ x ∈ snap.tasks.filterMap SnapTask.id) ∧
    (∀ x, x ∈ akeys s2.needs ↔ x ∈ snap.needs.filterMap SnapNeed.id) := by
  subst hr
  have h2 : applySnapshot s snap now = .ok (s2, sum) := h
  obtain ⟨_, k1, k2⟩ := applySnapshot_ok h2
  exact ⟨k1 hts, k2 hns⟩

/-- C1 witness: the spec's own scenario — store with task ids 1,2,3,
snapshot with task ids 1,2; after activation the store holds exactly 1,2
(task 3 deleted). -/
theorem claim_C1_witness :
    activateCommitService (Except.ok wOneSnap) wOneStore 5
      = .ok (wOneOut, ⟨0, 0, 0, 2, 1, 0, 0, 0⟩) ∧
    (3 ∈ akeys wOneOut.tasks ↔ 3 ∈ wOneSnap.tasks.filterMap SnapTask.id) ∧
    (1 ∈ akeys wOneOut.tasks ↔ 1 ∈ wOneSnap.tasks.filterMap SnapTask.id) := by
  have h := claim_C1 (Except.ok wOneSnap) wOneStore 5 wOneSnap wOneOut
    ⟨0, 0, 0, 2, 1, 0, 0, 0⟩ rfl (by decide) (by decide) rfl
  exact ⟨rfl, h.1 3, h.1 1⟩

/-- C3: after any sequence of successful operations from the empty store —
task creates and updates (both through the overridden `Task.save`), need
conversions, snapshot activations — repeatedly following the parent
reference never revisits a task's own id (in particular no task is its own
parent), and every parent chain is finite. -/
theorem claim_C3 (s : Store) (h : Relation.ReflTransGen Step Store.empty s) :
    (∀ i k, iterP s (k + 1) i ≠ some i) ∧ (∀ i, ∃ m, iterP s m i = none) := by
  have hinv := hierInv_reach hierInv_empty h
  exact ⟨hinv.2.2, fun i => chain_halts hinv i⟩

/-- C3 witness: a store reached by one concrete create step has no
self-parent at pk 1 and a finite chain from pk 1. -/
theorem claim_C3_witness :
    Relation.ReflTransGen Step Store.empty
      ⟨[(1, ⟨some "t", some "A faire", some 0, none, none, none⟩)], [], [], []⟩ ∧
    iterP ⟨[(1, ⟨some "t", some "A faire", some 0, none, none, none⟩)], [], [], []⟩ 1 1
      ≠ some 1 := by
  have hstep : Step Store.empty
      ⟨[(1, ⟨some "t", some "A faire", some 0, none, none, none⟩)], [], [], []⟩ :=
    Step.createTask Store.empty ⟨some "t", some "A faire", some 0, none, none, none⟩
      ⟨[(1, ⟨some "t", some "A faire", some 0, none, none, none⟩)], [], [], []⟩ 1 rfl
  have hr := Relation.ReflTransGen.single hstep
  exact ⟨hr, (claim_C3 _ hr).1 1 0⟩

/-- When the candidate parent is the task itself or its stored ancestor
chain walks back to the task, `Task.clean` produces exactly one error,
keyed "parent". -/
theorem cleanTask_parent_err (s : Store) (i : Nat) (base : TaskRec) (p : Nat)
    (hcy : ∃ k, iterP s k p = some i) :
    ∃ m, cleanTask s (some i) { base with parent := some p } = [("parent", m)] := by
  obtain ⟨k, hk⟩ := hcy
  by_cases hpi : p = i
  · subst hpi
    exact ⟨"Une tâche ne peut pas être son propre parent.", by simp [cleanTask]⟩
  · have hw : wouldCreateCycle s (some i) (cycleFuel s) p = true :=
      wouldCreateCycle_true_of_reaches s i _ p k hk
    exact ⟨"Cycle détecté dans la hiérarchie.", by simp [cleanTask, hpi, hw]⟩

/-- `TaskSerializer.validate_parent` converts that model error into a
serializer error on the "parent" field. -/
theorem validateParent_err {s : Store} {i : Nat} {old : TaskRec} {p : Nat} {m : String}
    (hcl : cleanTask s (some i) { old with parent := some p } = [("parent", m)]) :
    validateParent s (some (i, old)) (some p) = .error [m] := by
  simp [validateParent, hcl]

/-- C4: saving a task (update through the API) whose proposed parent is the
task itself, or whose proposed parent's ancestor chain contains the task's
own id, is rejected with a 400 validation error keyed on the "parent"
field and the store is left unchanged; the model-level save rejects the
same record with a "parent"-keyed error, so the task is never persisted. -/
theorem claim_C4 (s : Store) (i : Nat) (old : TaskRec) (p : Nat) (ttArg : Option Nat)
    (hold : alookup s.tasks i = some old)
    (hcy : ∃ k, iterP s k p = some i) :
    (∃ m, apiUpdateTask s i (some p) ttArg = (s, Resp.badRequest [("parent", m)])) ∧
    (∃ errs m2, saveTaskExisting s i { old with parent := some p } = .error errs ∧
      ("parent", m2) ∈ errs) := by
  obtain ⟨m, hcl⟩ := cleanTask_parent_err s i old p hcy
  constructor
  · exact ⟨m, by simp [apiUpdateTask, hold, validateParent_err hcl]⟩
  · cases hst : statusOk ({ old with parent := some p } : TaskRec).status with
    | true =>
      refine ⟨[("parent", m)], m, ?_, List.mem_singleton_self _⟩
      simp [saveTaskExisting, hold, fullCleanTask, hcl, hst]
    | false =>
      refine ⟨[("status", "Statut invalide, veuillez choisir : A faire, En cours, Fait"),
        ("parent", m)], m, ?_, by simp⟩
      simp [saveTaskExisting, hold, fullCleanTask, hcl, hst]

/-- C4 witness: setting Root.parent = Grandchild is rejected 400 on
"parent" with the store unchanged. -/
theorem claim_C4_witness :
    (∃ k, iterP wFourStore k 3 = some 1) ∧
    (∃ m, apiUpdateTask wFourStore 1 (some 3) none
      = (wFourStore, Resp.badRequest [("parent", m)])) ∧
    (∃ errs m2, saveTaskExisting wFourStore 1
        { (⟨some "Root", some "A faire", some 0, none, none, none⟩ : TaskRec) with
          parent := some 3 } = .error errs ∧ ("parent", m2) ∈ errs) := by
  have hcy : ∃ k, iterP wFourStore k 3 = some 1 := ⟨2, by decide⟩
  have h := claim_C4 wFourStore 1 ⟨some "Root", some "A faire", some 0, none, none, none⟩
    3 none rfl hcy
  exact ⟨hcy, h.1, h.2⟩

/-- C9 counterexample: with the default TaskType already present, the task
created by `convert_need` carries no task type at all — so not every task
created without specifying a type is assigned the default. -/
theorem claim_C9_counterexample :
    (getDefaultTaskType
        ⟨[], [(7, ⟨some "Besoin A", some "", some 0, none, false, none, none⟩)],
          [], [(3, ⟨"task", "Tâche", 40⟩)]⟩).1
      = ⟨[], [(7, ⟨some "Besoin A", some "", some 0, none, false, none, none⟩)],
          [], [(3, ⟨"task", "Tâche", 40⟩)]⟩ ∧
    convertNeed ⟨[], [(7, ⟨some "Besoin A", some "", some 0, none, false, none, none⟩)],
        [], [(3, ⟨"task", "Tâche", 40⟩)]⟩ 7 (some 1) 5
      = .ok
        (⟨[(1, ⟨some "Besoin A", some "A faire", some 5, none, none, none⟩)],
          [(7, ⟨some "Besoin A", some "", some 0, none, true, some 5, some 1⟩)],
          [], [(3, ⟨"task", "Tâche", 40⟩)]⟩, 1) ∧
    (⟨some "Besoin A", some "A faire", some 5, none, none, none⟩ : TaskRec).taskType
      ≠ some (getDefaultTaskType
        ⟨[], [(7, ⟨some "Besoin A", some "", some 0, none, false, none, none⟩)],
          [], [(3, ⟨"task", "Tâche", 40⟩)]⟩).2 := by
  exact ⟨rfl, rfl, by decide⟩

/-- C9 (amended): a default TaskType with code 'task' is lazily created by
`TaskType.get_default` when missing and returned as-is when present, and a
task created or updated through the task serializer without a task type is
assigned that default — but a task created by `convert_need` is given no
task type at all. -/
theorem claim_C9 (s : Store) :
    ((s.taskTypes.find? (fun q => q.2.code == "task") = none →
        (getDefaultTaskType s).1.taskTypes
          = s.taskTypes ++ [(freshKey s.taskTypes, ⟨"task", "Tâche", 40⟩)]) ∧
      (∀ j r, s.taskTypes.find? (fun q => q.2.code == "task") = some (j, r) →
        getDefaultTaskType s = (s, j))) ∧
    (∀ title status user now s2 tid,
      apiCreateTask s title status none none user now = (s2, Resp.created tid) →
      ∃ rec, alookup s2.tasks tid = some rec ∧
        rec.taskType = some (getDefaultTaskType s).2) ∧
    (∀ i s2, apiUpdateTask s i none none = (s2, Resp.okResp i) →
      ∃ rec, alookup s2.tasks i = some rec ∧
        rec.taskType = some (getDefaultTaskType s).2) ∧
    (∀ i u now s2 tid nd, alookup s.needs i = some nd →
      convertNeed s i u now = .ok (s2, tid) →
      ∃ rec, alookup s2.tasks tid = some rec ∧ rec.taskType = none) := by
  refine ⟨⟨?_, ?_⟩, ?_, ?_, ?_⟩
  · intro hfind
    simp [getDefaultTaskType, hfind]
  · intro j r hfind
    simp [getDefaultTaskType, hfind]
  · intro title status user now s2 tid h
    rw [apiCreateTask] at h
    rw [show validateParent s none none = .ok none from rfl] at h
    have h2 : (match saveTaskNew (getDefaultTaskType s).1
        ⟨some title, some (status.getD "A faire"), some now, user,
          some (getDefaultTaskType s).2, none⟩ with
      | .ok (s4, tid4) => (s4, Resp.created tid4)
      | .error errs => ((getDefaultTaskType s).1, Resp.badRequest errs))
        = (s2, Resp.created tid) := h
    split at h2
    next s3 tid2 hsv =>
      injection h2 with ha hb
      injection hb with hb
      subst ha
      subst hb
      obtain ⟨hfk, hs3, _, _⟩ := saveTaskNew_ok hsv
      refine ⟨⟨some title, some (status.getD "A faire"), some now, user,
        some (getDefaultTaskType s).2, none⟩, ?_, rfl⟩
      rw [hs3]
      show alookup ((getDefaultTaskType s).1.tasks ++ _) tid2 = _
      rw [alookup_append_right _ (hfk ▸ freshKey_not_mem (getDefaultTaskType s).1.tasks),
        alookup_single, if_pos rfl]
    next errs hsv =>
      exact Resp.noConfusion (congrArg Prod.snd h2)
  · intro i s2 h
    rw [apiUpdateTask] at h
    split at h
    next hold => exact Resp.noConfusion (congrArg Prod.snd h)
    next old hold =>
      rw [show validateParent s (some (i, old)) none = .ok none from rfl] at h
      have h2 : (match saveTaskExisting (getDefaultTaskType s).1 i
          { old with parent := none, taskType := some (getDefaultTaskType s).2 } with
        | .ok s4 => (s4, Resp.okResp i)
        | .error errs => ((getDefaultTaskType s).1, Resp.serverError errs))
          = (s2, Resp.okResp i) := h
      split at h2
      next s3 hsv =>
        injection h2 with ha hb
        subst ha
        obtain ⟨⟨old2, hold2⟩, hs3, _, _⟩ := saveTaskExisting_ok hsv
        refine ⟨{ old with parent := none, taskType := some (getDefaultTaskType s).2 }, ?_, rfl⟩
        rw [hs3]
        show alookup (aset (getDefaultTaskType s).1.tasks i _) i = _
        exact alookup_aset_self _ (alookup_mem_keys hold2)
      next errs hsv => exact Resp.noConfusion (congrArg Prod.snd h2)
  · intro i u now s2 tid nd hnd h
    rw [convertNeed_eq u now hnd] at h
    injection h with h
    injection h with h1 h2
    subst h1
    subst h2
    refine ⟨⟨nd.title, some "A faire", some now, nd.owner, none, none⟩, ?_, rfl⟩
    show alookup (s.tasks ++ _) (freshKey s.tasks) = _
    rw [alookup_append_right _ (freshKey_not_mem s.tasks), alookup_single, if_pos rfl]

/-- C9 witness: on a concrete empty store the default type is created
lazily and assigned by the serializer create path. -/
theorem claim_C9_witness :
    ((Store.empty.taskTypes.find? (fun q => q.2.code == "task") = none ∧
      (getDefaultTaskType Store.empty).1.taskTypes
        = Store.empty.taskTypes ++ [(freshKey Store.empty.taskTypes, ⟨"task", "Tâche", 40⟩)])) ∧
    (apiCreateTask Store.empty "t" none none none (some 1) 3
      = (⟨[(1, ⟨some "t", some "A faire", some 3, some 1, some 1, none⟩)], [], [],
          [(1, ⟨"task", "Tâche", 40⟩)]⟩, Resp.created 1) ∧
      ∃ rec, alookup (⟨[(1, ⟨some "t", some "A faire", some 3, some 1, some 1, none⟩)], [], [],
          [(1, ⟨"task", "Tâche", 40⟩)]⟩ : Store).tasks 1 = some rec ∧
        rec.taskType = some (getDefaultTaskType Store.empty).2) := by
  refine ⟨⟨rfl, (claim_C9 Store.empty).1.1 rfl⟩, rfl, ?_⟩
  exact (claim_C9 Store.empty).2.1 "t" none (some 1) 3 _ 1 rfl

theorem countP_congr_mem {l : List Nat} {p q : Nat → Bool}
    (h : ∀ a ∈ l, p a = q a) : l.countP p = l.countP q := by
  induction l with
  | nil => rfl
  | cons a t ih =>
    rw [List.countP_cons, List.countP_cons, h a (List.mem_cons_self a t),
      ih (fun b hb => h b (List.mem_cons_of_mem _ hb))]

/-- C8: `convert_needs` over a selection of existing needs succeeds,
converts exactly the members whose converted flag is False (marking them
with the instant and user and creating one task each), leaves
already-converted members and everything outside the selection untouched,
and returns the number of needs it converted. -/
theorem claim_C8 (sel : List Nat) : ∀ (s : Store) (u : Option Nat) (now : Nat),
    sel.Nodup → (∀ i ∈ sel, i ∈ akeys s.needs) →
    ∃ s2, convertNeeds s sel u now
        = .ok (s2, sel.countP (fun j =>
            match alookup s.needs j with
            | some nd2 => ! nd2.converted
            | none => false)) ∧
      s2.tasks.length = s.tasks.length + sel.countP (fun j =>
            match alookup s.needs j with
            | some nd2 => ! nd2.converted
            | none => false) ∧
      (∀ j nd2, j ∈ sel → alookup s.needs j = some nd2 → nd2.converted = true →
        alookup s2.needs j = some nd2) ∧
      (∀ j nd2, j ∈ sel → alookup s.needs j = some nd2 → nd2.converted = false →
        alookup s2.needs j
          = some { nd2 with converted := true, convertedAt := some now, convertedBy := u }) ∧
      (∀ j, j ∉ sel → alookup s2.needs j = alookup s.needs j) ∧
      s2.users = s.users ∧ s2.taskTypes = s.taskTypes := by
  induction sel with
  | nil =>
    intro s u now _ _
    exact ⟨s, rfl, by simp, by simp, by simp, fun j _ => rfl, rfl, rfl⟩
  | cons i rest ih =>
    intro s u now hnodup hmem
    have hiK : i ∈ akeys s.needs := hmem i (List.mem_cons_self _ _)
    obtain ⟨nd, hnd⟩ : ∃ nd2, alookup s.needs i = some nd2 := by
      cases hv : alookup s.needs i with
      | none =>
        have hs := alookup_isSome_of_mem_keys hiK
        rw [hv] at hs
        exact Bool.noConfusion hs
      | some nd2 => exact ⟨nd2, rfl⟩
    have hnotrest : i ∉ rest := (List.nodup_cons.mp hnodup).1
    have hrestnd : rest.Nodup := (List.nodup_cons.mp hnodup).2
    have hpredi : (match alookup s.needs i with
        | some nd2 => ! nd2.converted
        | none => false) = ! nd.converted := by
      rw [hnd]
    have step1 : convertNeeds s (i :: rest) u now
        = (if nd.converted then convertNeeds s rest u now
          else
            match convertNeed s i u now with
            | .error errs => .error errs
            | .ok (s1x, _) =>
              match convertNeeds s1x rest u now with
              | .error errs => .error errs
              | .ok (s3, c) => .ok (s3, c + 1)) := by
      rw [show convertNeeds s (i :: rest) u now
          = (match alookup s.needs i with
            | none => convertNeeds s rest u now
            | some nd2 =>
              if nd2.converted then convertNeeds s rest u now
              else
                match convertNeed s i u now with
                | .error errs => .error errs
                | .ok (s1x, _) =>
                  match convertNeeds s1x rest u now with
                  | .error errs => .error errs
                  | .ok (s3, c) => .ok (s3, c + 1)) from rfl, hnd]
    cases hcv : nd.converted with
    | true =>
      obtain ⟨s2, h1, h2, h3, h4, h5, h6, h7⟩ :=
        ih s u now hrestnd (fun j hj => hmem j (List.mem_cons_of_mem _ hj))
      have hcount : (i :: rest).countP (fun j => match alookup s.needs j with
          | some nd2 => ! nd2.converted | none => false)
          = rest.countP (fun j => match alookup s.needs j with
          | some nd2 => ! nd2.converted | none => false) := by
        rw [List.countP_cons, hpredi, hcv]
        simp
      have hunf : convertNeeds s (i :: rest) u now = convertNeeds s rest u now := by
        rw [step1, if_pos hcv]
      refine ⟨s2, ?_, ?_, ?_, ?_, ?_, h6, h7⟩
      · rw [hunf, hcount]
        exact h1
      · rw [hcount]
        exact h2
      · intro j ndj hj hjl hjc
        rcases List.mem_cons.mp hj with hj | hj
        · subst hj
          rw [h5 j hnotrest]
          exact hjl
        · exact h3 j ndj hj hjl hjc
      · intro j ndj hj hjl hjc
        rcases List.mem_cons.mp hj with hj | hj
        · subst hj
          rw [hnd] at hjl
          have : nd = ndj := Option.some.inj hjl
          rw [← this, hcv] at hjc
          exact Bool.noConfusion hjc
        · exact h4 j ndj hj hjl hjc
      · intro j hj
        exact h5 j (fun hh => hj (List.mem_cons_of_mem _ hh))
    | false =>
      set s1 : Store := { s with
        tasks := s.tasks ++
          [(freshKey s.tasks, ⟨nd.title, some "A faire", some now, nd.owner, none, none⟩)],
        needs := aset s.needs i
          { nd with converted := true, convertedAt := some now, convertedBy := u } } with hs1
      have hcv1 : convertNeed s i u now = .ok (s1, freshKey s.tasks) := convertNeed_eq u now hnd
      have hkeys1 : akeys s1.needs = akeys s.needs := by
        rw [hs1]
        exact akeys_aset _ _ _
      have hlookeq : ∀ j, j ≠ i → alookup s1.needs j = alookup s.needs j := by
        intro j hji
        rw [hs1]
        exact alookup_aset_other _ hji
      obtain ⟨s2, h1, h2, h3, h4, h5, h6, h7⟩ :=
        ih s1 u now hrestnd (fun j hj => by
          rw [hkeys1]
          exact hmem j (List.mem_cons_of_mem _ hj))
      have hpredeq : rest.countP (fun j => match alookup s1.needs j with
          | some nd2 => ! nd2.converted | none => false)
          = rest.countP (fun j => match alookup s.needs j with
          | some nd2 => ! nd2.converted | none => false) := by
        apply countP_congr_mem
        intro a ha
        have hai : a ≠ i := fun hh => hnotrest (hh ▸ ha)
        simp only [hlookeq a hai]
      have hcount : (i :: rest).countP (fun j => match alookup s.needs j with
          | some nd2 => ! nd2.converted | none => false)
          = rest.countP (fun j => match alookup s.needs j with
          | some nd2 => ! nd2.converted | none => false) + 1 := by
        rw [List.countP_cons, hpredi, hcv]
        simp
      have hcond : ¬ (nd.converted = true) := by
        rw [hcv]
        exact Bool.noConfusion
      have step3 : convertNeeds s (i :: rest) u now
          = match convertNeeds s1 rest u now with
            | .error errs => .error errs
            | .ok (s3, c) => .ok (s3, c + 1) := by
        rw [step1, if_neg hcond, hcv1]
      refine ⟨s2, ?_, ?_, ?_, ?_, ?_, h6.trans (by rw [hs1]), h7.trans (by rw [hs1])⟩
      · rw [step3, h1, hcount, hpredeq]
      · rw [hcount]
        have hlen1 : s1.tasks.length = s.tasks.length + 1 := by
          rw [hs1]
          simp
        rw [h2, hpredeq, hlen1]
        omega
      · intro j ndj hj hjl hjc
        rcases List.mem_cons.mp hj with hj | hj
        · subst hj
          rw [hnd] at hjl
          have heq2 : nd = ndj := Option.some.inj hjl
          rw [← heq2, hcv] at hjc
          exact Bool.noConfusion hjc
        · have hai : j ≠ i := fun hh => hnotrest (hh ▸ hj)
          exact h3 j ndj hj ((hlookeq j hai).trans hjl) hjc
      · intro j ndj hj hjl hjc
        rcases List.mem_cons.mp hj with hj | hj
        · subst hj
          rw [hnd] at hjl
          have heq2 : nd = ndj := Option.some.inj hjl
          subst heq2
          rw [h5 j hnotrest, hs1]
          exact alookup_aset_self _ hiK
        · have hai : j ≠ i := fun hh => hnotrest (hh ▸ hj)
          exact h4 j ndj hj ((hlookeq j hai).trans hjl) hjc
      · intro j hj
        have hjr : j ∉ rest := fun hh => hj (List.mem_cons_of_mem _ hh)
        have hji : j ≠ i := fun hh => hj (hh ▸ List.mem_cons_self _ _)
        rw [h5 j hjr]
        exact hlookeq j hji

/-- C8 witness: a two-need selection with one already-converted member —
exactly one conversion happens and the count is 1. -/
theorem claim_C8_witness :
    ([4, 5] : List Nat).Nodup ∧
    (∃ s2, convertNeeds
        ⟨[], [(4, ⟨some "n1", none, some 0, none, false, none, none⟩),
          (5, ⟨some "n2", none, some 0, none, true, none, none⟩)], [], []⟩
        [4, 5] none 9
        = .ok (s2, ([4, 5] : List Nat).countP (fun j =>
            match alookup (⟨[], [(4, ⟨some "n1", none, some 0, none, false, none, none⟩),
              (5, ⟨some "n2", none, some 0, none, true, none, none⟩)], [], []⟩ : Store).needs j with
            | some nd2 => ! nd2.converted
            | none => false)) ∧
      s2.tasks.length = 0 + ([4, 5] : List Nat).countP (fun j =>
            match alookup (⟨[], [(4, ⟨some "n1", none, some 0, none, false, none, none⟩),
              (5, ⟨some "n2", none, some 0, none, true, none, none⟩)], [], []⟩ : Store).needs j with
            | some nd2 => ! nd2.converted
            | none => false) ∧
      (∀ j nd2, j ∈ ([4, 5] : List Nat) →
        alookup (⟨[], [(4, ⟨some "n1", none, some 0, none, false, none, none⟩),
          (5, ⟨some "n2", none, some 0, none, true, none, none⟩)], [], []⟩ : Store).needs j
          = some nd2 → nd2.converted = true →
        alookup s2.needs j = some nd2) ∧
      (∀ j nd2, j ∈ ([4, 5] : List Nat) →
        alookup (⟨[], [(4, ⟨some "n1", none, some 0, none, false, none, none⟩),
          (5, ⟨some "n2", none, some 0, none, true, none, none⟩)], [], []⟩ : Store).needs j
          = some nd2 → nd2.converted = false →
        alookup s2.needs j
          = some { nd2 with converted := true, convertedAt := some 9, convertedBy := none }) ∧
      (∀ j, j ∉ ([4, 5] : List Nat) → alookup s2.needs j
        = alookup (⟨[], [(4, ⟨some "n1", none, some 0, none, false, none, none⟩),
          (5, ⟨some "n2", none, some 0, none, true, none, none⟩)], [], []⟩ : Store).needs j) ∧
      s2.users = [] ∧ s2.taskTypes = []) := by
  refine ⟨by decide, ?_⟩
  exact claim_C8 [4, 5]
    ⟨[], [(4, ⟨some "n1", none, some 0, none, false, none, none⟩),
      (5, ⟨some "n2", none, some 0, none, true, none, none⟩)], [], []⟩
    none 9 (by decide) (by decide)

end Taskflow